import Mathlib

/-!
# Session core of the SFU: rooms, room index and readiness barrier

A shallow embedding of `src/sfu/trial_room.go` (the `trialRoom` implementation with its
global `roomIndex`) and of `src/sfu/room.go` (the newer `room` implementation), followed by
theorems about the create-or-join policy, the readiness barrier and the per-user indexes.
The bitrate controller of `src/sfu/sender_controller.go`, the sanitizer of
`src/sfu/ws_conn.go` and `ControlFx` of `src/sfu/peer_conn.go` are embedded after the rooms.

Conventions of the embedding:

* a Go `map[string]V` is an association list with unique keys (`GoMap V`); `len` is its length;
* a Go `int` is an `Int` (the counters stay below `2 * MaxSize` or count joins, far from 2^63);
* a pointer to a room is an address in a heap of allocated rooms;
* a `chan struct{}` that is only ever closed is a `Chan`: whether it is closed, and how many
  times `close` has been executed on it (Go panics on the second one);
* goroutines spawned with `go` and messages sent on a websocket are recorded, in order, in an
  effect log;
* mutexes are not modelled: every operation is one atomic step, as the locks make it.
-/

namespace Sfu

/-! ## Go maps keyed by strings -/

/-- Go `map[string]V`: association list, keys unique when built with `set` from `[]`. -/
abbrev GoMap (V : Type) := List (String × V)

namespace GoMap

/-- Lookup `v, ok := m[k]`: `none` when the key is absent. -/
def get? {V : Type} : GoMap V → String → Option V
  | [], _ => none
  | (k', v) :: m, k => if k' = k then some v else get? m k

/-- Assignment `m[k] = v`: replaces the entry of `k` or adds one. -/
def set {V : Type} : GoMap V → String → V → GoMap V
  | [], k, v => [(k, v)]
  | (k', v') :: m, k, v => if k' = k then (k, v) :: m else (k', v') :: set m k v

/-- Builtin `delete(m, k)`. -/
def delete {V : Type} : GoMap V → String → GoMap V
  | [], _ => []
  | (k', v') :: m, k => if k' = k then delete m k else (k', v') :: delete m k

/-- Builtin `len(m)`. -/
def len {V : Type} (m : GoMap V) : Int := (m.length : Int)

/-- Keys of the map. -/
def keys {V : Type} (m : GoMap V) : List String := m.map Prod.fst

end GoMap

deriving instance DecidableEq for Except

/-! ## Channels that are only closed -/

/-- A `chan struct{}` used as a latch. -/
structure Chan where
  /-- whether the channel is closed -/
  closed : Bool
  /-- number of times `close` was executed (a second one panics in Go) -/
  closeCount : Nat
  deriving DecidableEq, Repr

/-- Result of `make(chan struct{})`. -/
def Chan.make : Chan := ⟨false, 0⟩

/-- Builtin `close(ch)`. -/
def Chan.close (c : Chan) : Chan := ⟨true, c.closeCount + 1⟩

/-! ## Constants (`trial_room.go` and `room.go` agree on these) -/

def DefaultSize : Int := 2
def MaxSize : Int := 8
def TracksPerPeer : Int := 2
def DefaultDuration : Int := 30
def MaxDuration : Int := 1200
def MaxNamespaceLength : Nat := 30

/-- The fields of the join payload read by the room code (its declaration is not in `src/`). -/
structure joinPayload where
  RoomId : String
  UserId : String
  Namespace : String
  Duration : Int
  Size : Int
  origin : String
  deriving DecidableEq, Repr

/-- A peer server, as far as rooms see it: its identity (the pointer) and its `userId`. -/
structure peerServer where
  /-- identity of the peer server (one per peer connection) -/
  id : Nat
  userId : String
  deriving DecidableEq, Repr

/-- Function `qualifiedId`: `join.origin + "#" + join.RoomId`. -/
def qualifiedId (join : joinPayload) : String :=
  join.origin ++ "#" ++ join.RoomId

/-! ## `trial_room.go` -/

/-- Characters kept by the regular expression `[^a-zA-Z0-9-]+` of `parseNamespace`. -/
def namespaceChar (c : Char) : Bool :=
  ('a' ≤ c && c ≤ 'z') || ('A' ≤ c && c ≤ 'Z') || ('0' ≤ c && c ≤ '9') || c = '-'

/-- Function `parseNamespace`: remove special characters, default when empty, cut when too
long (to `MaxNamespaceLength - 1` characters, as the slice `clean[0 : MaxNamespaceLength-1]`). -/
def parseNamespace (ns : String) : String :=
  let clean := ns.toList.filter namespaceChar
  if clean.length = 0 then "default"
  else if clean.length > MaxNamespaceLength then String.mk (clean.take (MaxNamespaceLength - 1))
  else String.mk clean

/-- The `trialRoom` struct (mutex and mixer left out). -/
structure trialRoom where
  peerServerIndex : GoMap peerServer
  connectedIndex : GoMap Bool
  joinedCountIndex : GoMap Int
  filesIndex : GoMap (List String)
  running : Bool
  /-- Value `none` is the zero `time.Time`. -/
  startedAt : Option Int
  inTracksReadyCount : Int
  outTracksReadyCount : Int
  waitForAllCh : Chan
  endCh : Chan
  qualifiedId : String
  shortId : String
  nameSpace : String
  size : Int
  duration : Int
  neededTracks : Int
  deriving DecidableEq, Repr

/-- Room constructor `newRoom` of `trial_room.go`. -/
def trialRoom.newRoom (qualifiedId : String) (join : joinPayload) : trialRoom :=
  let duration :=
    if join.Duration < 1 then DefaultDuration
    else if join.Duration > MaxDuration then MaxDuration
    else join.Duration
  let size :=
    if join.Size < 1 then DefaultSize
    else if join.Size > MaxSize then MaxSize
    else join.Size
  let connectedIndex := GoMap.set ([] : GoMap Bool) join.UserId true
  let joinedCountIndex := GoMap.set ([] : GoMap Int) join.UserId 1
  { peerServerIndex := []
    filesIndex := []
    connectedIndex := connectedIndex
    joinedCountIndex := joinedCountIndex
    running := false
    startedAt := none
    waitForAllCh := Chan.make
    endCh := Chan.make
    inTracksReadyCount := 0
    outTracksReadyCount := 0
    qualifiedId := qualifiedId
    shortId := join.RoomId
    nameSpace := parseNamespace join.Namespace
    size := size
    duration := duration
    neededTracks := size * TracksPerPeer }

/-- Method `userCount`. -/
def trialRoom.userCount (r : trialRoom) : Int := GoMap.len r.connectedIndex

/-- Method `connectedUserCount`. -/
def trialRoom.connectedUserCount (r : trialRoom) : Int := GoMap.len r.peerServerIndex

/-- Method `joinedCountForUser`: `r.joinedCountIndex[userId]`, 0 when absent. -/
def trialRoom.joinedCountForUser (r : trialRoom) (userId : String) : Int :=
  (GoMap.get? r.joinedCountIndex userId).getD 0

/-- Global state of `trial_room.go`: the rooms allocated so far (a `*trialRoom` is an index
in `heap`) and `roomIndex`. -/
structure TrialStore where
  heap : List trialRoom
  roomIndex : GoMap Nat
  deriving DecidableEq, Repr

/-- State after `init()`. -/
def TrialStore.init : TrialStore := ⟨[], []⟩

/-- Write through a `*trialRoom`. -/
def TrialStore.setRoom (s : TrialStore) (p : Nat) (r : trialRoom) : TrialStore :=
  { s with heap := s.heap.set p r }

/-- Function `joinRoom`: returns the new global state and `(room, nil)` as `.ok room` or
`(nil, err)` as `.error err`. An index entry always points to an allocated room; the
branch for a dangling pointer stands for the nil dereference that cannot happen. -/
def joinRoom (s : TrialStore) (join : joinPayload) : TrialStore × Except String Nat :=
  let qualifiedId := qualifiedId join
  let userId := join.UserId
  match GoMap.get? s.roomIndex qualifiedId with
  | some p =>
    match s.heap[p]? with
    | none => (s, .error "invalid memory address or nil pointer dereference")
    | some r =>
      match GoMap.get? r.connectedIndex userId with
      | some connected =>
        if connected then
          (s, .error "duplicate")
        else
          (s.setRoom p { r with
              connectedIndex := GoMap.set r.connectedIndex userId true
              joinedCountIndex :=
                GoMap.set r.joinedCountIndex userId (r.joinedCountForUser userId + 1) },
            .ok p)
      | none =>
        if r.userCount = r.size then
          (s, .error "full")
        else
          (s.setRoom p { r with
              connectedIndex := GoMap.set r.connectedIndex userId true
              joinedCountIndex := GoMap.set r.joinedCountIndex userId 1 },
            .ok p)
  | none =>
    let p := s.heap.length
    ({ heap := s.heap ++ [trialRoom.newRoom qualifiedId join]
       roomIndex := GoMap.set s.roomIndex qualifiedId p },
      .ok p)

/-- Method `delete`: `delete(roomIndex, r.qualifiedId)`. -/
def TrialStore.delete (s : TrialStore) (r : trialRoom) : TrialStore :=
  { s with roomIndex := GoMap.delete s.roomIndex r.qualifiedId }

/-- Method `connectPeerServer` of the room at `p`. -/
def TrialStore.connectPeerServer (s : TrialStore) (p : Nat) (ps : peerServer) : TrialStore :=
  match s.heap[p]? with
  | none => s
  | some r => s.setRoom p { r with peerServerIndex := GoMap.set r.peerServerIndex ps.userId ps }

/-- Method `disconnectUser` of the room at `p`. -/
def TrialStore.disconnectUser (s : TrialStore) (p : Nat) (userId : String) : TrialStore :=
  match s.heap[p]? with
  | none => s
  | some r =>
    if (GoMap.get? r.connectedIndex userId).getD false then
      let r1 := { r with
        peerServerIndex := GoMap.delete r.peerServerIndex userId
        connectedIndex := GoMap.set r.connectedIndex userId false }
      let s1 := s.setRoom p r1
      if r1.connectedUserCount = 0 && !r1.running then
        s1.delete r1
      else s1
    else s

/-- Method `incInTracksReadyCount` of `trial_room.go` for the room at `p`; `now` is the value
of `time.Now()`. The `start` messages and the countdown goroutine are not recorded here. -/
def TrialStore.incInTracksReadyCount (s : TrialStore) (p : Nat) (now : Int) : TrialStore :=
  match s.heap[p]? with
  | none => s
  | some r =>
    if r.inTracksReadyCount = r.neededTracks then s
    else
      let r1 := { r with inTracksReadyCount := r.inTracksReadyCount + 1 }
      if r1.inTracksReadyCount = r1.neededTracks then
        s.setRoom p { r1 with
          waitForAllCh := r1.waitForAllCh.close
          running := true
          startedAt := some now }
      else s.setRoom p r1

/-- Method `countdown` of `trial_room.go` once its timer has fired. -/
def TrialStore.countdown (s : TrialStore) (p : Nat) : TrialStore :=
  match s.heap[p]? with
  | none => s
  | some r => s.setRoom p { r with running := false, endCh := r.endCh.close }

/-- The calls made on the global state of `trial_room.go`. -/
inductive TrialOp where
  | joinRoom (join : joinPayload)
  | connectPeerServer (p : Nat) (ps : peerServer)
  | disconnectUser (p : Nat) (userId : String)
  | incInTracksReadyCount (p : Nat) (now : Int)
  | countdown (p : Nat)
  deriving DecidableEq, Repr

/-- One call. -/
def TrialStore.step (s : TrialStore) : TrialOp → TrialStore
  | .joinRoom join => (joinRoom s join).1
  | .connectPeerServer p ps => s.connectPeerServer p ps
  | .disconnectUser p userId => s.disconnectUser p userId
  | .incInTracksReadyCount p now => s.incInTracksReadyCount p now
  | .countdown p => s.countdown p

/-- A sequence of calls, in order. -/
def TrialStore.run (s : TrialStore) (ops : List TrialOp) : TrialStore :=
  ops.foldl TrialStore.step s

/-- The join count of user `userId` in the room at `p` (0 when nothing is allocated there). -/
def TrialStore.joinedCount (s : TrialStore) (p : Nat) (userId : String) : Int :=
  match s.heap[p]? with
  | none => 0
  | some r => r.joinedCountForUser userId

/-- Number of `joinRoom` calls of the sequence `ops`, run from `s`, that succeeded for user
`userId` and returned the room at `p`. -/
def successfulJoins (s : TrialStore) (p : Nat) (userId : String) : List TrialOp → Nat
  | [] => 0
  | op :: ops =>
    (match op with
      | .joinRoom join =>
        if join.UserId = userId ∧ (joinRoom s join).2 = .ok p then 1 else 0
      | _ => 0) + successfulJoins (s.step op) p userId ops

/-- Whether every `connectPeerServer(ps)` on a room of the sequence comes after a `joinRoom`
of the sequence that succeeded for `ps.userId` and returned that room; `done` holds the
calls made so far, from the state after `init()`. -/
def connectsAfterJoin (done : List TrialOp) : List TrialOp → Bool
  | [] => true
  | op :: ops =>
    (match op with
      | .connectPeerServer p ps => decide (0 < successfulJoins TrialStore.init p ps.userId done)
      | _ => true) && connectsAfterJoin (done ++ [op]) ops

/-! ## `room.go` -/

/-- What a room operation of `room.go` does outside the room: goroutines it spawns, messages
it sends, calls to the room store and to the SSRC index. -/
inductive Effect where
  /-- Statement `go ps.ws.send(kind)`. -/
  | wsSend (ps : peerServer) (kind : String)
  /-- Statement `go r.countdown()`. -/
  | goCountdown
  /-- Statement `go r.mixer.managedGlobalSignaling(cause, withPLI)`. -/
  | goManagedGlobalSignaling (cause : String) (withPLI : Bool)
  /-- Call `roomStoreSingleton.delete(r)`. -/
  | storeDelete
  /-- Statement `go store.AddToSSRCIndex(ssrc, kind, namespace, id, userId)`. -/
  | addToSSRCIndex (ssrc : Nat) (kind : String) (userId : String)
  /-- Call `store.RemoveFromSSRCIndex(ssrc)`. -/
  | removeFromSSRCIndex (ssrc : Nat)
  deriving DecidableEq, Repr

/-- The `room` struct (mutex, mixer and logger left out), with the log of its effects. -/
structure room where
  peerServerIndex : GoMap peerServer
  connectedIndex : GoMap Bool
  joinedCountIndex : GoMap Int
  filesIndex : GoMap (List String)
  running : Bool
  deleted : Bool
  createdAt : Int
  /-- Value `none` is the zero `time.Time`. -/
  startedAt : Option Int
  inTracksReadyCount : Int
  outTracksReadyCount : Int
  waitForAllCh : Chan
  endCh : Chan
  id : String
  hid : String
  qualifiedId : String
  nameSpace : String
  size : Int
  duration : Int
  neededTracks : Int
  ssrcs : List Nat
  effects : List Effect
  deriving DecidableEq, Repr

/-- Room constructor `newRoom` of `room.go`; `now` is the value of `time.Now()` and `hid` the
value of `helpers.RandomHexString(12)`. -/
def room.newRoom (qualifiedId : String) (join : joinPayload) (now : Int) (hid : String) : room :=
  let duration :=
    if join.Duration < 1 then DefaultDuration
    else if join.Duration > MaxDuration then MaxDuration
    else join.Duration
  let size :=
    if join.Size < 1 then DefaultSize
    else if join.Size > MaxSize then MaxSize
    else join.Size
  let connectedIndex := GoMap.set ([] : GoMap Bool) join.UserId true
  let joinedCountIndex := GoMap.set ([] : GoMap Int) join.UserId 1
  { peerServerIndex := []
    filesIndex := []
    deleted := false
    running := false
    connectedIndex := connectedIndex
    joinedCountIndex := joinedCountIndex
    waitForAllCh := Chan.make
    endCh := Chan.make
    createdAt := now
    startedAt := none
    inTracksReadyCount := 0
    outTracksReadyCount := 0
    qualifiedId := qualifiedId
    id := join.RoomId
    hid := hid
    nameSpace := join.Namespace
    size := size
    duration := duration
    neededTracks := size * TracksPerPeer
    ssrcs := []
    effects := [] }

/-- Method `userCount`. -/
def room.userCount (r : room) : Int := GoMap.len r.connectedIndex

/-- Method `connectedUserCount`. -/
def room.connectedUserCount (r : room) : Int := GoMap.len r.peerServerIndex

/-- Method `allUsersConnected`. -/
def room.allUsersConnected (r : room) : Bool := r.connectedUserCount = r.size

/-- Method `joinedCountForUser`. -/
def room.joinedCountForUser (r : room) (userId : String) : Int :=
  (GoMap.get? r.joinedCountIndex userId).getD 0

/-- Method `incInTracksReadyCount`; `kind` is `remoteTrack.Kind().String()` and `now` the
value of `time.Now()`. -/
def room.incInTracksReadyCount (r : room) (fromPs : peerServer) (kind : String) (now : Int) :
    room :=
  if r.inTracksReadyCount = r.neededTracks then
    if kind = "audio" then
      { r with effects := r.effects ++ [Effect.wsSend fromPs "start"] }
    else r
  else
    let r1 := { r with inTracksReadyCount := r.inTracksReadyCount + 1 }
    if r1.inTracksReadyCount = r1.neededTracks then
      { r1 with
        waitForAllCh := r1.waitForAllCh.close
        running := true
        startedAt := some now
        effects := r1.effects
          ++ r1.peerServerIndex.map (fun e => Effect.wsSend e.2 "start")
          ++ [Effect.goCountdown] }
    else r1

/-- Method `addSSRC`. -/
def room.addSSRC (r : room) (ssrc : Nat) (kind : String) (userId : String) : room :=
  { r with
    ssrcs := r.ssrcs ++ [ssrc]
    effects := r.effects ++ [Effect.addToSSRCIndex ssrc kind userId] }

/-- Method `incOutTracksReadyCount`: the room and whether signaling is needed. -/
def room.incOutTracksReadyCount (r : room) : room × Bool :=
  let r1 := { r with outTracksReadyCount := r.outTracksReadyCount + 1 }
  if r1.outTracksReadyCount = r1.neededTracks then (r1, true)
  else if r1.running && r1.outTracksReadyCount % 2 = 0 then (r1, true)
  else (r1, false)

/-- Method `decOutTracksReadyCount`. -/
def room.decOutTracksReadyCount (r : room) : room :=
  { r with outTracksReadyCount := r.outTracksReadyCount - 1 }

/-- Method `connectPeerServer`. -/
def room.connectPeerServer (r : room) (ps : peerServer) : room :=
  { r with peerServerIndex := GoMap.set r.peerServerIndex ps.userId ps }

/-- Method `unguardedDelete`. -/
def room.unguardedDelete (r : room) : room :=
  { r with
    deleted := true
    effects := r.effects ++ [Effect.storeDelete] ++ r.ssrcs.map Effect.removeFromSSRCIndex }

/-- Method `disconnectUser`. -/
def room.disconnectUser (r : room) (userId : String) : room :=
  if (GoMap.get? r.connectedIndex userId).getD false then
    let r1 := { r with
      peerServerIndex := GoMap.delete r.peerServerIndex userId
      connectedIndex := GoMap.set r.connectedIndex userId false
      effects := r.effects ++ [Effect.goManagedGlobalSignaling "user_disconnected" false] }
    if r1.connectedUserCount = 0 && !r1.running && !r1.deleted then
      r1.unguardedDelete
    else r1
  else r

/-- Method `addFiles`. -/
def room.addFiles (r : room) (userId : String) (files : List String) : room :=
  { r with
    filesIndex :=
      GoMap.set r.filesIndex userId ((GoMap.get? r.filesIndex userId).getD [] ++ files) }

/-- Method `countdown`, from the end of its first timer to its second wait. -/
def room.countdownEnd (r : room) : room :=
  { r with running := false, endCh := r.endCh.close }

/-- Method `countdown`, after its second wait. -/
def room.countdownCleanup (r : room) : room :=
  if !r.deleted then r.unguardedDelete else r

/-- Modelled from the spec: `roomStoreSingleton.join` is not under `src/`; this is what the
create-or-join policy of the Room Store does to a room that is already in the store:
a connected user is refused (duplicate), a user who left reconnects and has the join count
incremented, a new user is refused when `userCount() == size` (full) and registered
otherwise. -/
def room.join (r : room) (userId : String) : Except String room :=
  match GoMap.get? r.connectedIndex userId with
  | some connected =>
    if connected then .error "duplicate"
    else .ok { r with
      connectedIndex := GoMap.set r.connectedIndex userId true
      joinedCountIndex := GoMap.set r.joinedCountIndex userId (r.joinedCountForUser userId + 1) }
  | none =>
    if r.userCount = r.size then .error "full"
    else .ok { r with
      connectedIndex := GoMap.set r.connectedIndex userId true
      joinedCountIndex := GoMap.set r.joinedCountIndex userId 1 }

/-- The operations on a room. -/
inductive RoomOp where
  | join (userId : String)
  | connectPeerServer (ps : peerServer)
  | disconnectUser (userId : String)
  | incInTracksReadyCount (fromPs : peerServer) (kind : String) (now : Int)
  | addSSRC (ssrc : Nat) (kind : String) (userId : String)
  | incOutTracksReadyCount
  | decOutTracksReadyCount
  | addFiles (userId : String) (files : List String)
  | countdownEnd
  | countdownCleanup
  deriving DecidableEq, Repr

/-- One operation; a refused join leaves the room as it is. -/
def room.step (r : room) : RoomOp → room
  | .join userId =>
    match r.join userId with
    | .ok r1 => r1
    | .error _ => r
  | .connectPeerServer ps => r.connectPeerServer ps
  | .disconnectUser userId => r.disconnectUser userId
  | .incInTracksReadyCount fromPs kind now => r.incInTracksReadyCount fromPs kind now
  | .addSSRC ssrc kind userId => r.addSSRC ssrc kind userId
  | .incOutTracksReadyCount => r.incOutTracksReadyCount.1
  | .decOutTracksReadyCount => r.decOutTracksReadyCount
  | .addFiles userId files => r.addFiles userId files
  | .countdownEnd => r.countdownEnd
  | .countdownCleanup => r.countdownCleanup

/-- A sequence of operations, in order. -/
def room.run (r : room) (ops : List RoomOp) : room :=
  ops.foldl room.step r

/-- Number of `start` messages sent to the peer server `ps`. -/
def room.startCount (r : room) (ps : peerServer) : Nat :=
  r.effects.count (Effect.wsSend ps "start")

/-- Whether every `connectPeerServer` of the sequence, run from `r`, is made while
`connectedIndex[ps.userId]` is true. -/
def connectsWhileConnected (r : room) : List RoomOp → Bool
  | [] => true
  | op :: ops =>
    (match op with
      | .connectPeerServer ps => (GoMap.get? r.connectedIndex ps.userId).getD false
      | _ => true) && connectsWhileConnected (r.step op) ops

/-- The room after a reconnection of `userId`. -/
def trialRoom.reconnected (r : trialRoom) (userId : String) : trialRoom :=
  { r with
    connectedIndex := GoMap.set r.connectedIndex userId true
    joinedCountIndex := GoMap.set r.joinedCountIndex userId (r.joinedCountForUser userId + 1) }

/-- The room after the first join of `userId`. -/
def trialRoom.registered (r : trialRoom) (userId : String) : trialRoom :=
  { r with
    connectedIndex := GoMap.set r.connectedIndex userId true
    joinedCountIndex := GoMap.set r.joinedCountIndex userId 1 }

/-! ## Concrete payloads, peer servers and call sequences -/

/-- User `a` asks for room `r` of size 2. -/
def joinA : joinPayload := ⟨"r", "a", "ns", 30, 2, "https://host"⟩

/-- User `a` asks for room `r` of size 3. -/
def joinA3 : joinPayload := ⟨"r", "a", "ns", 30, 3, "https://host"⟩

/-- User `b` asks for room `r` of size 2. -/
def joinB : joinPayload := ⟨"r", "b", "ns", 30, 2, "https://host"⟩

/-- The global state after `joinA`. -/
def storeA : TrialStore := (joinRoom TrialStore.init joinA).1

/-- First peer server of user `a`. -/
def psA : peerServer := ⟨1, "a"⟩

/-- Peer server of user `b`. -/
def psB : peerServer := ⟨2, "b"⟩

/-- Peer server of user `a` after a reconnection. -/
def psA2 : peerServer := ⟨3, "a"⟩

/-- A room of size 3 in which `a` and `b` publish their tracks, `a` leaves, comes back and
publishes the tracks of its new peer connection; a third user never joins. -/
def reconnectBeforeStart3 : List RoomOp :=
  [.join "b", .connectPeerServer psA, .connectPeerServer psB,
   .incInTracksReadyCount psA "audio" 1, .incInTracksReadyCount psA "video" 1,
   .incInTracksReadyCount psB "audio" 2, .incInTracksReadyCount psB "video" 2,
   .disconnectUser "a", .join "a", .connectPeerServer psA2,
   .incInTracksReadyCount psA2 "audio" 3, .incInTracksReadyCount psA2 "video" 3]

/-- A room of size 2 in which `a` publishes its tracks, leaves, comes back and publishes the
tracks of its new peer connection before `b` has published anything. -/
def reconnectBeforeStart2 : List RoomOp :=
  [.join "b", .connectPeerServer psA, .connectPeerServer psB,
   .incInTracksReadyCount psA "audio" 1, .incInTracksReadyCount psA "video" 1,
   .disconnectUser "a", .join "a", .connectPeerServer psA2,
   .incInTracksReadyCount psA2 "audio" 3, .incInTracksReadyCount psA2 "video" 3]

/-- The tracks of `b`, published after the sequence above. -/
def lateTracksOfB : List RoomOp :=
  [.incInTracksReadyCount psB "audio" 4, .incInTracksReadyCount psB "video" 4]

/-- The barrier invariant of a room: the counter of ready inbound tracks is between 0 and
`neededTracks`, `waitForAllCh` is closed exactly when the counter is at `neededTracks`, and
`close` was executed once on a closed channel and never on an open one. -/
def room.BarrierInv (r : room) : Prop :=
  0 ≤ r.inTracksReadyCount ∧ r.inTracksReadyCount ≤ r.neededTracks ∧
  (r.waitForAllCh.closed = true ↔ r.inTracksReadyCount = r.neededTracks) ∧
  r.waitForAllCh.closeCount = (if r.waitForAllCh.closed then 1 else 0)

/-- Invariant of the global state used for the join counts: in every allocated room, a user
without entry in `connectedIndex` has no entry in `joinedCountIndex`. -/
def TrialStore.JoinInv (s : TrialStore) : Prop :=
  ∀ r ∈ s.heap, ∀ u, GoMap.get? r.connectedIndex u = none → GoMap.get? r.joinedCountIndex u = none

/-- A room of size 2 in which `a` leaves and joins again, and a second `disconnectUser` for
the old connection of `a` arrives before the new peer server of `a` is connected. -/
def staleDisconnect : List RoomOp :=
  [.join "b", .connectPeerServer psB, .connectPeerServer psA, .disconnectUser "a", .join "a",
   .disconnectUser "a", .connectPeerServer psA2]

/-- A room of size 2 in which every peer server is connected right after the join of its
user. -/
def orderlyConnects : List RoomOp :=
  [.connectPeerServer psA, .join "b", .connectPeerServer psB, .disconnectUser "a", .join "a",
   .connectPeerServer psA2]

/-- Invariant of a room: every user with a peer server in `peerServerIndex` has
`connectedIndex[userId] == true`. -/
def room.ConnInv (r : room) : Prop :=
  ∀ u, u ∈ GoMap.keys r.peerServerIndex → GoMap.get? r.connectedIndex u = some true

/-- Three users ask for a room of size 2 and connect their peer servers when admitted. -/
def threeUsersJoin : List TrialOp :=
  [.joinRoom joinA, .connectPeerServer 0 psA, .joinRoom joinB, .connectPeerServer 0 psB,
   .joinRoom ⟨"r", "c", "ns", 30, 2, "https://host"⟩]

/-- Invariant of a `trialRoom` used for the size bound: no key occurs twice in
`connectedIndex` or in `peerServerIndex`, every user of `peerServerIndex` has an entry in
`connectedIndex`, and `userCount() <= size`. -/
def trialRoom.SizeInv (r : trialRoom) : Prop :=
  (GoMap.keys r.connectedIndex).Nodup ∧ (GoMap.keys r.peerServerIndex).Nodup ∧
  (∀ u, u ∈ GoMap.keys r.peerServerIndex → u ∈ GoMap.keys r.connectedIndex) ∧
  r.userCount ≤ r.size

/-- The size invariant in every allocated room. -/
def TrialStore.SizeInv (s : TrialStore) : Prop :=
  ∀ r ∈ s.heap, r.SizeInv

/-- The room at address 0 after `threeUsersJoin`. -/
def roomOfTwo : trialRoom :=
  ((TrialStore.init.run threeUsersJoin).heap[0]?).getD (trialRoom.newRoom "" joinA)

/-- The global state after `a` created room `r` and connected its peer server. -/
def storeAConnected : TrialStore :=
  TrialStore.init.run [.joinRoom joinA, .connectPeerServer 0 psA]

/-- The room at address 0 of `storeAConnected`. -/
def roomAConnected : trialRoom :=
  (storeAConnected.heap[0]?).getD (trialRoom.newRoom "" joinA)

/-- Users `a` and `b` share room `r`; `a` leaves, joins again, is refused a second join while
connected, then both leave (the room is deleted) and both ask for room `r` again. -/
def joinLeaveJoin : List TrialOp :=
  [.joinRoom joinA, .connectPeerServer 0 psA, .joinRoom joinB, .connectPeerServer 0 psB,
   .disconnectUser 0 "a", .joinRoom joinA, .joinRoom joinA, .disconnectUser 0 "a",
   .disconnectUser 0 "b", .joinRoom joinA, .joinRoom joinB]

/-! ## Deletion and ending delay of `room.go` -/

/-- Constant `Ending` of `room.go`. -/
def Ending : Int := 15

/-- Method `endingDelay`; `elapsedSeconds` is `int(time.Since(r.startedAt).Seconds())`. -/
def room.endingDelay (r : room) (elapsedSeconds : Int) : Int :=
  let remaining := r.duration - elapsedSeconds
  let delay := remaining - Ending
  if delay < 1 then 1 else delay

/-- Number of calls of `roomStoreSingleton.delete(r)` made by the room so far. -/
def room.storeDeleteCount (r : room) : Nat :=
  r.effects.count Effect.storeDelete

/-- Number of `managedGlobalSignaling("user_disconnected", false)` goroutines spawned by the
room so far. -/
def room.disconnectSignalingCount (r : room) : Nat :=
  r.effects.count (Effect.goManagedGlobalSignaling "user_disconnected" false)

/-- Invariant of a room: the store was asked to delete it once when `deleted` is set, and
never otherwise. -/
def room.DeleteInv (r : room) : Prop :=
  r.storeDeleteCount = if r.deleted then 1 else 0

/-- A room of size 2 in which `a` connects and disconnects, twice over, then the countdown
cleanup runs. -/
def disconnectTwice : List RoomOp :=
  [.connectPeerServer psA, .disconnectUser "a", .disconnectUser "a", .countdownCleanup]

/-- A room asked for with a duration of 10 seconds. -/
def joinShort : joinPayload := ⟨"r", "a", "ns", 10, 2, "https://host"⟩

/-! ## `sender_controller.go`

The `uint64` bitrates are natural numbers below `2 ^ 64`; products and differences are
taken modulo `2 ^ 64` as Go does. -/

/-- The bitrates of a stream configuration read by `newSenderController` (the declaration
of the configuration is not in `src/`). -/
structure streamConfig where
  MinBitrate : Nat
  DefaultBitrate : Nat
  MaxBitrate : Nat
  deriving DecidableEq, Repr

/-- The fields of the `senderController` struct that hold its kind and its bitrates. -/
structure senderController where
  kind : String
  optimalBitrate : Nat
  maxBitrate : Nat
  minBitrate : Nat
  deriving DecidableEq, Repr

/-- Constructor `newSenderController`: `kind` is `ms.output.Kind().String()` and
`streamConfig` is `ms.streamConfig`. -/
def newSenderController (kind : String) (streamConfig : streamConfig) : senderController :=
  { kind := kind
    optimalBitrate := streamConfig.DefaultBitrate
    maxBitrate := streamConfig.MaxBitrate
    minBitrate := streamConfig.MinBitrate }

/-- Method `capRate` (its argument is named `in` in the source). -/
def senderController.capRate (sc : senderController) (inRate : Nat) : Nat :=
  if inRate > sc.maxBitrate then sc.maxBitrate
  else if inRate < sc.minBitrate then sc.minBitrate
  else inRate

/-- Method `updateRateFromLoss`; `loss` is a `uint8`. -/
def senderController.updateRateFromLoss (sc : senderController) (loss : Fin 256) :
    senderController :=
  let prevOptimalBitrate := sc.optimalBitrate
  let newOptimalBitrate :=
    if loss.val < 5 then prevOptimalBitrate * 269 % 2 ^ 64 / 256
    else if loss.val > 25 then prevOptimalBitrate * (512 - loss.val) % 2 ^ 64 / 512
    else prevOptimalBitrate
  { sc with optimalBitrate := sc.capRate newOptimalBitrate }

/-- Conversion `uint64(n)` of a Go `int`. -/
def uint64OfInt (n : Int) : Nat := (n % 2 ^ 64).toNat

/-- Subtraction of two `uint64`. -/
def uint64Sub (a b : Nat) : Nat := (a + (2 ^ 64 - b % 2 ^ 64)) % 2 ^ 64

/-- One tick of `loopGCC`; `targetBitrate` is `sc.ccEstimator.GetTargetBitrate()` and
`audioMaxBitrate` is `config.Audio.MaxBitrate`. -/
def senderController.gccTick (sc : senderController) (targetBitrate : Int)
    (audioMaxBitrate : Nat) : senderController :=
  { sc with
    optimalBitrate := sc.capRate (uint64Sub (uint64OfInt targetBitrate) audioMaxBitrate) }

/-- What updates the optimal bitrate of a sender controller. -/
inductive SenderEvent where
  | receiverReport (loss : Fin 256)
  | gccTick (targetBitrate : Int) (audioMaxBitrate : Nat)
  deriving DecidableEq, Repr

/-- One update. -/
def senderController.step (sc : senderController) : SenderEvent → senderController
  | .receiverReport loss => sc.updateRateFromLoss loss
  | .gccTick targetBitrate audioMaxBitrate => sc.gccTick targetBitrate audioMaxBitrate

/-- A sequence of updates, in order. -/
def senderController.run (sc : senderController) (events : List SenderEvent) :
    senderController :=
  events.foldl senderController.step sc

/-- The step of the loss-based controller for a report without loss, in exact arithmetic:
the previous bitrate times 269/256, rounded down and capped by `capRate`. -/
def senderController.lossFreeStep (sc : senderController) (prev : Nat) : Nat :=
  sc.capRate (prev * 269 / 256)

/-- The controller after `n` consecutive receiver reports with `fractionLost = 0`. -/
def senderController.afterLossFreeReports (sc : senderController) (n : Nat) :
    senderController :=
  (fun s : senderController => s.updateRateFromLoss 0)^[n] sc

/-- A configuration whose default bitrate is below its minimum. -/
def lowDefaultConfig : streamConfig := ⟨100000, 50000, 200000⟩

/-- A video configuration: from 100 kbit/s to 2 Mbit/s, 1 Mbit/s by default. -/
def videoConfig : streamConfig := ⟨100000, 1000000, 2000000⟩

/-- A controller whose bitrate is 10^17, between 0 and `2^64 - 1`. -/
def wrappingController : senderController :=
  ⟨"video", 100000000000000000, 18446744073709551615, 0⟩

/-- A controller whose bitrate is 5 * 10^16, between 0 and 10^17. -/
def hugeController : senderController := ⟨"video", 50000000000000000, 100000000000000000, 0⟩

/-! ## `ws_conn.go` -/

/-- Constant `MaxParsedLength`. -/
def MaxParsedLength : Nat := 50

/-- Characters kept by the regular expression `[^a-zA-Z0-9-_]+` of `parseString`. -/
def parsedChar (c : Char) : Bool :=
  ('a' ≤ c && c ≤ 'z') || ('A' ≤ c && c ≤ 'Z') || ('0' ≤ c && c ≤ '9') || c = '-' || c = '_'

/-- Function `parseString`: remove special characters, default when empty, cut when too
long (to `MaxParsedLength - 1` characters, as the slice `clean[0 : MaxParsedLength-1]`). -/
def parseString (str : String) : String :=
  let clean := str.toList.filter parsedChar
  if clean.length = 0 then "default"
  else if clean.length > MaxParsedLength then String.mk (clean.take (MaxParsedLength - 1))
  else String.mk clean

/-- The sanitizer as the specification words it: remove every character outside
`[a-zA-Z0-9-_]`; if nothing remains return "default"; otherwise return the cleaned string
truncated to its first `MaxParsedLength` characters. -/
def parseStringReference (str : String) : String :=
  let clean := str.toList.filter parsedChar
  if clean = [] then "default" else String.mk (clean.take MaxParsedLength)

/-- A user id of 51 letters. -/
def longUserId : String := String.mk (List.replicate 51 'a')

/-- A payload of origin `o` for the room id `#r`. -/
def joinHashRoom : joinPayload := ⟨"#r", "a", "ns", 30, 2, "o"⟩

/-- A payload of origin `o#` for the room id `r`. -/
def joinHashOrigin : joinPayload := ⟨"r", "a", "ns", 30, 2, "o#"⟩

/-! ## `peer_conn.go` -/

/-- Constant `DefaultInterpolatorStep`. -/
def DefaultInterpolatorStep : Int := 30

/-- Constant `MaxInterpolatorDuration`. -/
def MaxInterpolatorDuration : Int := 5000

/-- A `float32`, given by its bits: effect values are passed on, never computed with. -/
structure float32 where
  bits : Nat
  deriving DecidableEq, Repr

/-- The fields of the control payload read by `ControlFx` (its declaration is not in
`src/`). -/
structure ControlPayload where
  Kind : String
  Name : String
  Property : String
  Value : float32
  Duration : Int
  deriving DecidableEq, Repr

/-- A media pipeline, as far as `ControlFx` sees it: its identity. A `*gst.Pipeline` is an
`Option Pipeline`, `none` being the nil pointer. -/
structure Pipeline where
  id : Nat
  deriving DecidableEq, Repr

/-- The interpolator made by `sequencing.NewLinearInterpolator(from, to, duration, step)`. -/
structure LinearInterpolator where
  fromValue : float32
  toValue : float32
  duration : Int
  step : Int
  deriving DecidableEq, Repr

/-- The `PeerConn` struct (mutex and pion connection left out). -/
structure PeerConn where
  interpolatorIndex : GoMap LinearInterpolator
  audioPipeline : Option Pipeline
  videoPipeline : Option Pipeline
  deriving DecidableEq, Repr

/-- The calls `ControlFx` makes on interpolators and pipelines. -/
inductive FxCall where
  /-- Call `interpolator.Stop()`. -/
  | interpolatorStop (interpolator : LinearInterpolator)
  /-- Call `pipeline.SetFxProperty(name, property, value)`. -/
  | setFxProperty (pipeline : Option Pipeline) (name : String) (property : String)
      (value : float32)
  /-- Call `pipeline.GetFxProperty(name, property)`. -/
  | getFxProperty (pipeline : Option Pipeline) (name : String) (property : String)
  deriving DecidableEq, Repr

/-- Method `setPipeline`. -/
def PeerConn.setPipeline (p : PeerConn) (kind : String) (pipeline : Option Pipeline) :
    PeerConn :=
  if kind = "audio" then { p with audioPipeline := pipeline }
  else if kind = "video" then { p with videoPipeline := pipeline }
  else p

/-- The part of `ControlFx` that follows the choice of `pipeline`: `oldValue` is what
`pipeline.GetFxProperty` returns and `samples` are the values received from the channel of
the new interpolator until it is closed. -/
def PeerConn.controlPipeline (p : PeerConn) (payload : ControlPayload)
    (pipeline : Option Pipeline) (oldValue : float32) (samples : List float32) :
    PeerConn × List FxCall :=
  let interpolatorId := payload.Kind ++ payload.Name ++ payload.Property
  let stopped : List FxCall :=
    match GoMap.get? p.interpolatorIndex interpolatorId with
    | some interpolator => [FxCall.interpolatorStop interpolator]
    | none => []
  if payload.Duration = 0 then
    (p, stopped ++ [FxCall.setFxProperty pipeline payload.Name payload.Property payload.Value])
  else
    let duration :=
      if payload.Duration > MaxInterpolatorDuration then MaxInterpolatorDuration
      else payload.Duration
    let newInterpolator : LinearInterpolator :=
      ⟨oldValue, payload.Value, duration, DefaultInterpolatorStep⟩
    let registered := GoMap.set p.interpolatorIndex interpolatorId newInterpolator
    ({ p with interpolatorIndex := GoMap.delete registered interpolatorId },
      stopped ++ [FxCall.getFxProperty pipeline payload.Name payload.Property]
        ++ samples.map (FxCall.setFxProperty pipeline payload.Name payload.Property))

/-- Method `ControlFx`: the peer connection after the call and the calls made, in order. -/
def PeerConn.ControlFx (p : PeerConn) (payload : ControlPayload) (oldValue : float32)
    (samples : List float32) : PeerConn × List FxCall :=
  if payload.Kind = "audio" then
    match p.audioPipeline with
    | none => (p, [])
    | some _ => p.controlPipeline payload p.audioPipeline oldValue samples
  else if payload.Kind = "video" then
    match p.audioPipeline with
    | none => (p, [])
    | some _ => p.controlPipeline payload p.videoPipeline oldValue samples
  else (p, [])

/-- A peer connection whose audio pipeline is set and whose video pipeline is not, with an
interpolation running on the gain of the video effect `fx`. -/
def audioOnlyConn : PeerConn :=
  { interpolatorIndex := [("videofxgain", ⟨⟨0⟩, ⟨1⟩, 1000, 30⟩)]
    audioPipeline := some ⟨1⟩
    videoPipeline := none }

/-- A peer connection whose video pipeline is set and whose audio pipeline is not. -/
def videoOnlyConn : PeerConn :=
  { interpolatorIndex := []
    audioPipeline := none
    videoPipeline := some ⟨2⟩ }

/-- A request to set at once the gain of the video effect `fx`. -/
def videoGainControl : ControlPayload := ⟨"video", "fx", "gain", ⟨7⟩, 0⟩

/-- User `c` asks for room `r` of size 2. -/
def joinC : joinPayload := ⟨"r", "c", "ns", 30, 2, "https://host"⟩

/-- Peer server of user `c`. -/
def psC : peerServer := ⟨4, "c"⟩

/-- User `a` creates room `r` and connects, `b` joins it, `a` leaves and the room, empty of
peer servers, is deleted; `c` asks for room `r`, gets a new room and connects; the peer
server of `b` is then connected to the first room, and `b` leaves. -/
def staleRoomDisconnect : List TrialOp :=
  [.joinRoom joinA, .connectPeerServer 0 psA, .joinRoom joinB, .disconnectUser 0 "a",
   .joinRoom joinC, .connectPeerServer 1 psC, .connectPeerServer 0 psB,
   .disconnectUser 0 "b"]

/-! ## Lemmas on Go maps -/

namespace GoMap

theorem get?_set_self {V : Type} (m : GoMap V) (k : String) (v : V) :
    get? (set m k v) k = some v := by
  induction m with
  | nil => simp [set, get?]
  | cons e m ih =>
    obtain ⟨k', v'⟩ := e
    by_cases h : k' = k <;> simp [set, get?, h, ih]

theorem get?_set_ne {V : Type} (m : GoMap V) (k k' : String) (v : V) (h : k ≠ k') :
    get? (set m k v) k' = get? m k' := by
  induction m with
  | nil => simp [set, get?, h]
  | cons e m ih =>
    obtain ⟨k'', v''⟩ := e
    by_cases h1 : k'' = k
    · subst h1
      simp [set, get?, h]
    · by_cases h2 : k'' = k'
      · subst h2
        simp [set, get?, h1]
      · simp [set, get?, h1, h2, ih]

theorem get?_delete_self {V : Type} (m : GoMap V) (k : String) :
    get? (delete m k) k = none := by
  induction m with
  | nil => simp [delete, get?]
  | cons e m ih =>
    obtain ⟨k', v'⟩ := e
    by_cases h : k' = k <;> simp [delete, get?, h, ih]

theorem get?_delete_ne {V : Type} (m : GoMap V) (k k' : String) (h : k ≠ k') :
    get? (delete m k) k' = get? m k' := by
  induction m with
  | nil => simp [delete, get?]
  | cons e m ih =>
    obtain ⟨k'', v''⟩ := e
    by_cases h1 : k'' = k
    · subst h1
      simp [delete, get?, h, ih]
    · by_cases h2 : k'' = k'
      · subst h2
        simp [delete, get?, h1]
      · simp [delete, get?, h1, h2, ih]

theorem mem_keys_iff {V : Type} (m : GoMap V) (k : String) :
    k ∈ keys m ↔ (get? m k).isSome = true := by
  induction m with
  | nil => simp [keys, get?]
  | cons e m ih =>
    obtain ⟨k', v'⟩ := e
    by_cases h : k' = k
    · simp [keys, get?, h]
    · have h' : ¬ k = k' := fun e => h e.symm
      simpa [keys, get?, h, h'] using ih

theorem get?_eq_none_iff {V : Type} (m : GoMap V) (k : String) :
    get? m k = none ↔ k ∉ keys m := by
  rw [mem_keys_iff]
  cases get? m k <;> simp

theorem length_set {V : Type} (m : GoMap V) (k : String) (v : V) :
    (set m k v).length = if (get? m k).isSome then m.length else m.length + 1 := by
  induction m with
  | nil => simp [set, get?]
  | cons e m ih =>
    obtain ⟨k', v'⟩ := e
    by_cases h : k' = k
    · simp [set, get?, h]
    · simp only [set, get?, h, if_false, List.length_cons, ih]
      split <;> rfl

theorem mem_keys_set {V : Type} (m : GoMap V) (k k' : String) (v : V) :
    k' ∈ keys (set m k v) ↔ k' = k ∨ k' ∈ keys m := by
  rw [mem_keys_iff, mem_keys_iff]
  by_cases h : k = k'
  · subst h
    simp [get?_set_self]
  · have h' : ¬ k' = k := fun e => h e.symm
    simp [get?_set_ne m k k' v h, h']

theorem mem_keys_delete {V : Type} (m : GoMap V) (k k' : String) :
    k' ∈ keys (delete m k) ↔ k' ≠ k ∧ k' ∈ keys m := by
  rw [mem_keys_iff, mem_keys_iff]
  by_cases h : k = k'
  · subst h
    simp [get?_delete_self]
  · have h' : ¬ k' = k := fun e => h e.symm
    simp [get?_delete_ne m k k' h, h']

theorem nodup_keys_set {V : Type} (m : GoMap V) (k : String) (v : V)
    (h : (keys m).Nodup) : (keys (set m k v)).Nodup := by
  induction m with
  | nil => simp [set, keys]
  | cons e m ih =>
    obtain ⟨k', v'⟩ := e
    have hm : (keys m).Nodup := (List.nodup_cons.mp h).2
    have hk : k' ∉ keys m := (List.nodup_cons.mp h).1
    by_cases h1 : k' = k
    · subst h1
      simpa [set, keys] using h
    · have h2 : k' ∉ keys (set m k v) := by
        rw [mem_keys_set]
        rintro (e | e)
        · exact h1 e
        · exact hk e
      simp only [set, h1, if_false]
      exact List.nodup_cons.mpr ⟨h2, ih hm⟩

theorem nodup_keys_delete {V : Type} (m : GoMap V) (k : String)
    (h : (keys m).Nodup) : (keys (delete m k)).Nodup := by
  induction m with
  | nil => simp [delete, keys]
  | cons e m ih =>
    obtain ⟨k', v'⟩ := e
    have hm : (keys m).Nodup := (List.nodup_cons.mp h).2
    have hk : k' ∉ keys m := (List.nodup_cons.mp h).1
    by_cases h1 : k' = k
    · simpa [delete, h1] using ih hm
    · have h2 : k' ∉ keys (delete m k) := by
        rw [mem_keys_delete]
        exact fun e => hk e.2
      simp only [delete, h1, if_false]
      exact List.nodup_cons.mpr ⟨h2, ih hm⟩

theorem length_keys {V : Type} (m : GoMap V) : (keys m).length = m.length := by
  simp [keys]

end GoMap

/-! ## Heap lemmas -/

theorem heap_set_self (h : List trialRoom) (p : Nat) (r r1 : trialRoom)
    (hp : h[p]? = some r) : (h.set p r1)[p]? = some r1 := by
  have hlt : p < h.length := by
    rcases Nat.lt_or_ge p h.length with hl | hl
    · exact hl
    · rw [List.getElem?_eq_none hl] at hp
      cases hp
  simp [List.getElem?_set, hlt]

theorem heap_set_ne (h : List trialRoom) (p q : Nat) (r1 : trialRoom) (hne : p ≠ q) :
    (h.set p r1)[q]? = h[q]? := by
  simp [List.getElem?_set, hne]

/-! ## The create-or-join policy of `joinRoom` -/

theorem joinRoom_absent (s : TrialStore) (join : joinPayload)
    (h : GoMap.get? s.roomIndex (qualifiedId join) = none) :
    joinRoom s join =
      ({ heap := s.heap ++ [trialRoom.newRoom (qualifiedId join) join]
         roomIndex := GoMap.set s.roomIndex (qualifiedId join) s.heap.length },
        .ok s.heap.length) := by
  simp [joinRoom, h]

theorem joinRoom_dangling (s : TrialStore) (join : joinPayload) (p : Nat)
    (h : GoMap.get? s.roomIndex (qualifiedId join) = some p) (hp : s.heap[p]? = none) :
    joinRoom s join = (s, .error "invalid memory address or nil pointer dereference") := by
  simp [joinRoom, h, hp]

theorem joinRoom_duplicate (s : TrialStore) (join : joinPayload) (p : Nat) (r : trialRoom)
    (h : GoMap.get? s.roomIndex (qualifiedId join) = some p) (hp : s.heap[p]? = some r)
    (hc : GoMap.get? r.connectedIndex join.UserId = some true) :
    joinRoom s join = (s, .error "duplicate") := by
  simp [joinRoom, h, hp, hc]

theorem joinRoom_reconnect (s : TrialStore) (join : joinPayload) (p : Nat) (r : trialRoom)
    (h : GoMap.get? s.roomIndex (qualifiedId join) = some p) (hp : s.heap[p]? = some r)
    (hc : GoMap.get? r.connectedIndex join.UserId = some false) :
    joinRoom s join = (s.setRoom p (r.reconnected join.UserId), .ok p) := by
  simp [joinRoom, h, hp, hc, trialRoom.reconnected]

theorem joinRoom_full (s : TrialStore) (join : joinPayload) (p : Nat) (r : trialRoom)
    (h : GoMap.get? s.roomIndex (qualifiedId join) = some p) (hp : s.heap[p]? = some r)
    (hc : GoMap.get? r.connectedIndex join.UserId = none) (hf : r.userCount = r.size) :
    joinRoom s join = (s, .error "full") := by
  simp [joinRoom, h, hp, hc, hf]

theorem joinRoom_register (s : TrialStore) (join : joinPayload) (p : Nat) (r : trialRoom)
    (h : GoMap.get? s.roomIndex (qualifiedId join) = some p) (hp : s.heap[p]? = some r)
    (hc : GoMap.get? r.connectedIndex join.UserId = none) (hf : r.userCount ≠ r.size) :
    joinRoom s join = (s.setRoom p (r.registered join.UserId), .ok p) := by
  simp [joinRoom, h, hp, hc, hf, trialRoom.registered]

/-- C1: `joinRoom` follows the create-or-join policy. When the qualified id is absent from
`roomIndex`, a room is created by `newRoom`, stored under the qualified id and returned, with
`connectedIndex[userId] = true` and `joinedCountIndex[userId] = 1`. When a room is present:
a user whose `connectedIndex` entry is true is refused with "duplicate"; a user whose entry
is false gets it set to true and the join count incremented by one, and the room is
returned; a user without entry is refused with "full" when `userCount() == size`, and is
otherwise registered with `connectedIndex[userId] = true` and `joinedCountIndex[userId] = 1`,
and the room is returned. -/
theorem joinRoom_policy (s : TrialStore) (join : joinPayload) :
    (GoMap.get? s.roomIndex (qualifiedId join) = none →
      (joinRoom s join).2 = .ok s.heap.length ∧
      GoMap.get? (joinRoom s join).1.roomIndex (qualifiedId join) = some s.heap.length ∧
      ∃ r, (joinRoom s join).1.heap[s.heap.length]? = some r ∧
        r = trialRoom.newRoom (qualifiedId join) join ∧
        GoMap.get? r.connectedIndex join.UserId = some true ∧
        GoMap.get? r.joinedCountIndex join.UserId = some 1) ∧
    (∀ p r, GoMap.get? s.roomIndex (qualifiedId join) = some p → s.heap[p]? = some r →
      (GoMap.get? r.connectedIndex join.UserId = some true →
        (joinRoom s join).2 = .error "duplicate") ∧
      (GoMap.get? r.connectedIndex join.UserId = some false →
        (joinRoom s join).2 = .ok p ∧
        ∃ r1, (joinRoom s join).1.heap[p]? = some r1 ∧
          GoMap.get? r1.connectedIndex join.UserId = some true ∧
          r1.joinedCountForUser join.UserId = r.joinedCountForUser join.UserId + 1) ∧
      (GoMap.get? r.connectedIndex join.UserId = none → r.userCount = r.size →
        (joinRoom s join).2 = .error "full") ∧
      (GoMap.get? r.connectedIndex join.UserId = none → r.userCount ≠ r.size →
        (joinRoom s join).2 = .ok p ∧
        ∃ r1, (joinRoom s join).1.heap[p]? = some r1 ∧
          GoMap.get? r1.connectedIndex join.UserId = some true ∧
          GoMap.get? r1.joinedCountIndex join.UserId = some 1)) := by
  refine ⟨?_, ?_⟩
  · intro habs
    refine ⟨by simp [joinRoom, habs], ?_, ?_⟩
    · simp [joinRoom, habs, GoMap.get?_set_self]
    · refine ⟨trialRoom.newRoom (qualifiedId join) join, ?_, rfl, ?_, ?_⟩
      · simp [joinRoom, habs]
      · simp [trialRoom.newRoom, GoMap.get?_set_self]
      · simp [trialRoom.newRoom, GoMap.get?_set_self]
  · intro p r hidx hheap
    refine ⟨?_, ?_, ?_, ?_⟩
    · intro hc
      rw [joinRoom_duplicate s join p r hidx hheap hc]
    · intro hc
      rw [joinRoom_reconnect s join p r hidx hheap hc]
      refine ⟨rfl, r.reconnected join.UserId, heap_set_self s.heap p r _ hheap, ?_, ?_⟩
      · simp [trialRoom.reconnected, GoMap.get?_set_self]
      · simp [trialRoom.reconnected, trialRoom.joinedCountForUser, GoMap.get?_set_self]
    · intro hc hfull
      rw [joinRoom_full s join p r hidx hheap hc hfull]
    · intro hc hfull
      rw [joinRoom_register s join p r hidx hheap hc hfull]
      refine ⟨rfl, r.registered join.UserId, heap_set_self s.heap p r _ hheap, ?_, ?_⟩
      · simp [trialRoom.registered, GoMap.get?_set_self]
      · simp [trialRoom.registered, GoMap.get?_set_self]

/-- Witness of C1 on two concrete calls: the first join of `a` creates the room at address 0,
a second join of `a` while connected is refused as a duplicate. -/
theorem joinRoom_policy_witness :
    (joinRoom TrialStore.init joinA).2 = .ok 0 ∧
    (joinRoom storeA joinA).2 = .error "duplicate" :=
  ⟨((joinRoom_policy TrialStore.init joinA).1 (by decide)).1,
   ((joinRoom_policy storeA joinA).2 0 (trialRoom.newRoom (qualifiedId joinA) joinA)
      (by decide) (by decide)).1 (by decide)⟩

/-! ## The readiness barrier of `room.go` -/

/-- C2: the barrier of a room can close while a user is missing. In a room of size 3, users
`a` and `b` publish their two tracks each, `a` disconnects, joins again and the two tracks
of its new peer connection bring the counter to `neededTracks = 6`: the last call closes
`waitForAllCh` and sets `running`, with two peer servers connected and
`allUsersConnected()` false. -/
theorem barrier_closes_without_all_users :
    ((room.newRoom (qualifiedId joinA3) joinA3 0 "h").run
        reconnectBeforeStart3.dropLast).waitForAllCh.closed = false ∧
    ((room.newRoom (qualifiedId joinA3) joinA3 0 "h").run
        reconnectBeforeStart3).waitForAllCh.closed = true ∧
    ((room.newRoom (qualifiedId joinA3) joinA3 0 "h").run reconnectBeforeStart3).running = true ∧
    ((room.newRoom (qualifiedId joinA3) joinA3 0 "h").run reconnectBeforeStart3).size = 3 ∧
    ((room.newRoom (qualifiedId joinA3) joinA3 0 "h").run
        reconnectBeforeStart3).connectedUserCount = 2 ∧
    ((room.newRoom (qualifiedId joinA3) joinA3 0 "h").run
        reconnectBeforeStart3).allUsersConnected = false := by
  decide

theorem newRoom_barrierInv (qid : String) (join : joinPayload) (now : Int) (hid : String) :
    (room.newRoom qid join now hid).BarrierInv := by
  have hs : (0 : Int) < (room.newRoom qid join now hid).neededTracks := by
    simp only [room.newRoom, DefaultSize, MaxSize, TracksPerPeer]
    split_ifs <;> omega
  refine ⟨by simp [room.newRoom], ?_, ?_, by simp [room.newRoom, Chan.make]⟩
  · have h0 : (room.newRoom qid join now hid).inTracksReadyCount = 0 := rfl
    omega
  · have h0 : (room.newRoom qid join now hid).inTracksReadyCount = 0 := rfl
    have hc : (room.newRoom qid join now hid).waitForAllCh.closed = false := rfl
    rw [h0, hc]
    constructor
    · intro h
      cases h
    · intro h
      omega

theorem incInTracksReadyCount_barrierInv (r : room) (fromPs : peerServer) (kind : String)
    (now : Int) (h : r.BarrierInv) : (r.incInTracksReadyCount fromPs kind now).BarrierInv := by
  obtain ⟨h0, h1, h2, h3⟩ := h
  unfold room.incInTracksReadyCount
  by_cases hfull : r.inTracksReadyCount = r.neededTracks
  · by_cases hk : kind = "audio"
    · simpa [hfull, hk, room.BarrierInv] using ⟨by omega, h2.mpr hfull, h3⟩
    · simp only [hfull, hk, if_true, if_false]
      exact ⟨h0, h1, h2, h3⟩
  · have hopen : r.waitForAllCh.closed = false := by
      cases hc : r.waitForAllCh.closed
      · rfl
      · exact absurd (h2.mp hc) hfull
    by_cases hnext : r.inTracksReadyCount + 1 = r.neededTracks
    · simp only [hfull, hnext, if_true, if_false, room.BarrierInv, Chan.close]
      rw [hopen] at h3
      refine ⟨by omega, le_refl _, by simp, by simp [h3]⟩
    · simp only [hfull, hnext, if_false, room.BarrierInv]
      refine ⟨by omega, by omega, ?_, h3⟩
      rw [hopen]
      constructor
      · intro h
        cases h
      · intro h
        exact h.elim

theorem step_inTracks_frame (r : room) (op : RoomOp)
    (hop : ∀ fromPs kind now, op ≠ RoomOp.incInTracksReadyCount fromPs kind now) :
    (r.step op).inTracksReadyCount = r.inTracksReadyCount ∧
    (r.step op).neededTracks = r.neededTracks ∧
    (r.step op).waitForAllCh = r.waitForAllCh := by
  cases op with
  | join userId =>
    simp only [room.step, room.join]
    split <;> rename_i heq
    · split at heq
      · split at heq
        · cases heq
        · cases heq
          exact ⟨rfl, rfl, rfl⟩
      · split at heq
        · cases heq
        · cases heq
          exact ⟨rfl, rfl, rfl⟩
    · exact ⟨rfl, rfl, rfl⟩
  | connectPeerServer ps => exact ⟨rfl, rfl, rfl⟩
  | disconnectUser userId =>
    simp only [room.step, room.disconnectUser, room.unguardedDelete]
    split
    · split <;> exact ⟨rfl, rfl, rfl⟩
    · exact ⟨rfl, rfl, rfl⟩
  | incInTracksReadyCount fromPs kind now => exact absurd rfl (hop fromPs kind now)
  | addSSRC ssrc kind userId => exact ⟨rfl, rfl, rfl⟩
  | incOutTracksReadyCount =>
    simp only [room.step, room.incOutTracksReadyCount]
    split
    · exact ⟨rfl, rfl, rfl⟩
    · split <;> exact ⟨rfl, rfl, rfl⟩
  | decOutTracksReadyCount => exact ⟨rfl, rfl, rfl⟩
  | addFiles userId files => exact ⟨rfl, rfl, rfl⟩
  | countdownEnd => exact ⟨rfl, rfl, rfl⟩
  | countdownCleanup =>
    simp only [room.step, room.countdownCleanup, room.unguardedDelete]
    split <;> exact ⟨rfl, rfl, rfl⟩

theorem step_barrierInv (r : room) (op : RoomOp) (h : r.BarrierInv) :
    (r.step op).BarrierInv := by
  by_cases hop : ∃ fromPs kind now, op = RoomOp.incInTracksReadyCount fromPs kind now
  · obtain ⟨fromPs, kind, now, rfl⟩ := hop
    exact incInTracksReadyCount_barrierInv r fromPs kind now h
  · have hop1 : ∀ fromPs kind now, op ≠ RoomOp.incInTracksReadyCount fromPs kind now :=
      fun fromPs kind now e => hop ⟨fromPs, kind, now, e⟩
    obtain ⟨e1, e2, e3⟩ := step_inTracks_frame r op hop1
    unfold room.BarrierInv
    rw [e1, e2, e3]
    exact h

theorem run_barrierInv (ops : List RoomOp) (r : room) (h : r.BarrierInv) :
    (r.run ops).BarrierInv := by
  induction ops generalizing r with
  | nil => exact h
  | cons op ops ih => exact ih (r.step op) (step_barrierInv r op h)

/-- C3: in every state reached from `newRoom` by a sequence of room operations,
`waitForAllCh` is closed if and only if `inTracksReadyCount == neededTracks`, and `close`
was executed on it at most once, exactly once when it is closed: no sequence of calls
closes it a second time. -/
theorem waitForAllCh_closed_iff_tracks_ready (qid : String) (join : joinPayload) (now : Int)
    (hid : String) (ops : List RoomOp) :
    (((room.newRoom qid join now hid).run ops).waitForAllCh.closed = true ↔
      ((room.newRoom qid join now hid).run ops).inTracksReadyCount =
        ((room.newRoom qid join now hid).run ops).neededTracks) ∧
    ((room.newRoom qid join now hid).run ops).waitForAllCh.closeCount ≤ 1 ∧
    (((room.newRoom qid join now hid).run ops).waitForAllCh.closed = true ↔
      ((room.newRoom qid join now hid).run ops).waitForAllCh.closeCount = 1) := by
  obtain ⟨_, _, h2, h3⟩ := run_barrierInv ops _ (newRoom_barrierInv qid join now hid)
  refine ⟨h2, ?_, ?_⟩
  · rw [h3]
    split <;> omega
  · rw [h3]
    cases ((room.newRoom qid join now hid).run ops).waitForAllCh.closed <;> simp

/-- Witness of C3 on the sequence `reconnectBeforeStart2`: the four tracks counted in a room
of size 2 closed `waitForAllCh`, by one execution of `close`. -/
theorem waitForAllCh_closed_iff_tracks_ready_witness :
    ((room.newRoom (qualifiedId joinA) joinA 0 "h").run
        reconnectBeforeStart2).inTracksReadyCount = 4 ∧
    ((room.newRoom (qualifiedId joinA) joinA 0 "h").run
        reconnectBeforeStart2).waitForAllCh.closed = true ∧
    ((room.newRoom (qualifiedId joinA) joinA 0 "h").run
        reconnectBeforeStart2).waitForAllCh.closeCount = 1 :=
  ⟨by decide, by decide,
   (waitForAllCh_closed_iff_tracks_ready (qualifiedId joinA) joinA 0 "h"
      reconnectBeforeStart2).2.2.mp (by decide)⟩

/-- C4: in every state reached from `newRoom` by a sequence of room operations,
`inTracksReadyCount` is at most `neededTracks`, no operation decreases it, and a call of
`incInTracksReadyCount` leaves it unchanged when it equals `neededTracks` and increases it
by exactly one otherwise. -/
theorem inTracksReadyCount_bounded_monotone (qid : String) (join : joinPayload) (now : Int)
    (hid : String) (ops : List RoomOp) :
    ((room.newRoom qid join now hid).run ops).inTracksReadyCount ≤
      ((room.newRoom qid join now hid).run ops).neededTracks ∧
    (∀ op : RoomOp, ((room.newRoom qid join now hid).run ops).inTracksReadyCount ≤
      (((room.newRoom qid join now hid).run ops).step op).inTracksReadyCount) ∧
    (∀ (fromPs : peerServer) (kind : String) (t : Int),
      (((room.newRoom qid join now hid).run ops).inTracksReadyCount =
          ((room.newRoom qid join now hid).run ops).neededTracks ∧
        (((room.newRoom qid join now hid).run ops).incInTracksReadyCount
            fromPs kind t).inTracksReadyCount =
          ((room.newRoom qid join now hid).run ops).inTracksReadyCount) ∨
      (((room.newRoom qid join now hid).run ops).inTracksReadyCount ≠
          ((room.newRoom qid join now hid).run ops).neededTracks ∧
        (((room.newRoom qid join now hid).run ops).incInTracksReadyCount
            fromPs kind t).inTracksReadyCount =
          ((room.newRoom qid join now hid).run ops).inTracksReadyCount + 1)) := by
  generalize hr : (room.newRoom qid join now hid).run ops = r
  have hinv : r.BarrierInv := by
    rw [← hr]
    exact run_barrierInv ops _ (newRoom_barrierInv qid join now hid)
  have hinc : ∀ (fromPs : peerServer) (kind : String) (t : Int),
      (r.inTracksReadyCount = r.neededTracks ∧
        (r.incInTracksReadyCount fromPs kind t).inTracksReadyCount = r.inTracksReadyCount) ∨
      (r.inTracksReadyCount ≠ r.neededTracks ∧
        (r.incInTracksReadyCount fromPs kind t).inTracksReadyCount =
          r.inTracksReadyCount + 1) := by
    intro fromPs kind t
    unfold room.incInTracksReadyCount
    by_cases hfull : r.inTracksReadyCount = r.neededTracks
    · left
      refine ⟨hfull, ?_⟩
      by_cases hk : kind = "audio" <;> simp [hfull, hk]
    · right
      refine ⟨hfull, ?_⟩
      by_cases hnext : r.inTracksReadyCount + 1 = r.neededTracks <;> simp [hfull, hnext]
  refine ⟨hinv.2.1, ?_, hinc⟩
  intro op
  by_cases hop : ∃ fromPs kind t, op = RoomOp.incInTracksReadyCount fromPs kind t
  · obtain ⟨fromPs, kind, t, rfl⟩ := hop
    rcases hinc fromPs kind t with ⟨_, h⟩ | ⟨_, h⟩
    · exact le_of_eq h.symm
    · simp only [room.step]
      omega
  · have hop1 : ∀ fromPs kind t, op ≠ RoomOp.incInTracksReadyCount fromPs kind t :=
      fun fromPs kind t e => hop ⟨fromPs, kind, t, e⟩
    exact le_of_eq (step_inTracks_frame r op hop1).1.symm

/-- Witness of C4 on the sequence `reconnectBeforeStart2` followed by the tracks of `b`:
the counter stays at `neededTracks = 4`. -/
theorem inTracksReadyCount_bounded_monotone_witness :
    ((room.newRoom (qualifiedId joinA) joinA 0 "h").run
        (reconnectBeforeStart2 ++ lateTracksOfB)).neededTracks = 4 ∧
    ((room.newRoom (qualifiedId joinA) joinA 0 "h").run
        (reconnectBeforeStart2 ++ lateTracksOfB)).inTracksReadyCount ≤
      ((room.newRoom (qualifiedId joinA) joinA 0 "h").run
        (reconnectBeforeStart2 ++ lateTracksOfB)).neededTracks :=
  ⟨by decide,
   (inTracksReadyCount_bounded_monotone (qualifiedId joinA) joinA 0 "h"
      (reconnectBeforeStart2 ++ lateTracksOfB)).1⟩

/-- C5: a peer connection can be sent `start` twice. In a room of size 2, `a` publishes its
two tracks, disconnects, joins again and publishes the two tracks of its new peer
connection: the barrier closes and the fan-out sends `start` to the peer servers of `a` and
`b`. When `b` then publishes its audio track, the reconnection path sends `start` to `b` a
second time; its video track sends none. -/
theorem start_sent_twice_to_late_publisher :
    ((room.newRoom (qualifiedId joinA) joinA 0 "h").run
        reconnectBeforeStart2.dropLast).startCount psB = 0 ∧
    ((room.newRoom (qualifiedId joinA) joinA 0 "h").run
        reconnectBeforeStart2).waitForAllCh.closed = true ∧
    ((room.newRoom (qualifiedId joinA) joinA 0 "h").run
        reconnectBeforeStart2).startCount psB = 1 ∧
    ((room.newRoom (qualifiedId joinA) joinA 0 "h").run
        reconnectBeforeStart2).startCount psA2 = 1 ∧
    ((room.newRoom (qualifiedId joinA) joinA 0 "h").run
        (reconnectBeforeStart2 ++ lateTracksOfB)).startCount psB = 2 ∧
    ((room.newRoom (qualifiedId joinA) joinA 0 "h").run
        (reconnectBeforeStart2 ++ lateTracksOfB)).startCount psA2 = 1 := by
  decide

/-! ## Case analysis of `joinRoom` -/

theorem joinRoom_cases (s : TrialStore) (join : joinPayload) :
    (GoMap.get? s.roomIndex (qualifiedId join) = none ∧
      joinRoom s join =
        ({ heap := s.heap ++ [trialRoom.newRoom (qualifiedId join) join]
           roomIndex := GoMap.set s.roomIndex (qualifiedId join) s.heap.length },
          .ok s.heap.length)) ∨
    (∃ e, joinRoom s join = (s, .error e)) ∨
    (∃ p r, s.heap[p]? = some r ∧ GoMap.get? r.connectedIndex join.UserId = some false ∧
      joinRoom s join = (s.setRoom p (r.reconnected join.UserId), .ok p)) ∨
    (∃ p r, s.heap[p]? = some r ∧ GoMap.get? r.connectedIndex join.UserId = none ∧
      r.userCount ≠ r.size ∧
      joinRoom s join = (s.setRoom p (r.registered join.UserId), .ok p)) := by
  cases hidx : GoMap.get? s.roomIndex (qualifiedId join) with
  | none => exact Or.inl ⟨rfl, joinRoom_absent s join hidx⟩
  | some p =>
    right
    cases hp : s.heap[p]? with
    | none => exact Or.inl ⟨_, joinRoom_dangling s join p hidx hp⟩
    | some r =>
      cases hc : GoMap.get? r.connectedIndex join.UserId with
      | none =>
        by_cases hf : r.userCount = r.size
        · exact Or.inl ⟨_, joinRoom_full s join p r hidx hp hc hf⟩
        · exact Or.inr (Or.inr ⟨p, r, hp, hc, hf, joinRoom_register s join p r hidx hp hc hf⟩)
      | some c =>
        cases c with
        | true => exact Or.inl ⟨_, joinRoom_duplicate s join p r hidx hp hc⟩
        | false => exact Or.inr (Or.inl ⟨p, r, hp, hc, joinRoom_reconnect s join p r hidx hp hc⟩)

/-! ## Join counts -/

theorem joinedCount_setRoom (s : TrialStore) (q p : Nat) (r r1 : trialRoom) (u : String)
    (hq : s.heap[q]? = some r) :
    (s.setRoom q r1).joinedCount p u =
      if p = q then r1.joinedCountForUser u else s.joinedCount p u := by
  by_cases h : p = q
  · subst h
    simp [TrialStore.joinedCount, TrialStore.setRoom, heap_set_self s.heap p r r1 hq]
  · have h1 : q ≠ p := fun e => h e.symm
    simp [TrialStore.joinedCount, TrialStore.setRoom, heap_set_ne s.heap q p r1 h1, h]

theorem joinedCount_of_same_index (s : TrialStore) (q p : Nat) (r r1 : trialRoom) (u : String)
    (hq : s.heap[q]? = some r) (hj : r1.joinedCountIndex = r.joinedCountIndex) :
    (s.setRoom q r1).joinedCount p u = s.joinedCount p u := by
  rw [joinedCount_setRoom s q p r r1 u hq]
  split
  · rename_i h
    subst h
    simp [TrialStore.joinedCount, hq, trialRoom.joinedCountForUser, hj]
  · rfl

theorem joinInv_setRoom (s : TrialStore) (q : Nat) (r1 : trialRoom) (h : s.JoinInv)
    (h1 : ∀ u, GoMap.get? r1.connectedIndex u = none → GoMap.get? r1.joinedCountIndex u = none) :
    (s.setRoom q r1).JoinInv := by
  intro r hr
  rcases List.mem_or_eq_of_mem_set hr with hr | hr
  · exact h r hr
  · rw [hr]
    exact h1

theorem get?_set_eq_none {V : Type} (m : GoMap V) (k u : String) (v : V)
    (h : GoMap.get? (GoMap.set m k v) u = none) : k ≠ u ∧ GoMap.get? m u = none := by
  by_cases hk : k = u
  · subst hk
    rw [GoMap.get?_set_self] at h
    cases h
  · rw [GoMap.get?_set_ne m k u v hk] at h
    exact ⟨hk, h⟩

theorem joinRoom_joinInv (s : TrialStore) (join : joinPayload) (h : s.JoinInv) :
    (joinRoom s join).1.JoinInv := by
  rcases joinRoom_cases s join with ⟨_, e⟩ | ⟨_, e⟩ | ⟨p, r, hp, _, e⟩ | ⟨p, r, hp, _, _, e⟩
  · rw [e]
    intro r hr u hu
    rcases List.mem_append.mp hr with hr | hr
    · exact h r hr u hu
    · rw [List.mem_singleton] at hr
      subst hr
      have hne := (get?_set_eq_none _ _ _ _ hu).1
      simp only [trialRoom.newRoom]
      rw [GoMap.get?_set_ne _ _ _ _ hne]
      rfl
  · rw [e]
    exact h
  · rw [e]
    refine joinInv_setRoom s p _ h ?_
    intro u hu
    obtain ⟨hne, hu1⟩ := get?_set_eq_none _ _ _ _ hu
    simp only [trialRoom.reconnected]
    rw [GoMap.get?_set_ne _ _ _ _ hne]
    exact h r (List.getElem?_mem hp) u hu1
  · rw [e]
    refine joinInv_setRoom s p _ h ?_
    intro u hu
    obtain ⟨hne, hu1⟩ := get?_set_eq_none _ _ _ _ hu
    simp only [trialRoom.registered]
    rw [GoMap.get?_set_ne _ _ _ _ hne]
    exact h r (List.getElem?_mem hp) u hu1

theorem step_joinInv (s : TrialStore) (op : TrialOp) (h : s.JoinInv) : (s.step op).JoinInv := by
  cases op with
  | joinRoom join => exact joinRoom_joinInv s join h
  | connectPeerServer p ps =>
    simp only [TrialStore.step, TrialStore.connectPeerServer]
    cases hp : s.heap[p]? with
    | none => exact h
    | some r => exact joinInv_setRoom s p _ h (h r (List.getElem?_mem hp))
  | disconnectUser p userId =>
    simp only [TrialStore.step, TrialStore.disconnectUser]
    cases hp : s.heap[p]? with
    | none => exact h
    | some r =>
      have key : (s.setRoom p { r with
          peerServerIndex := GoMap.delete r.peerServerIndex userId
          connectedIndex := GoMap.set r.connectedIndex userId false }).JoinInv := by
        refine joinInv_setRoom s p _ h ?_
        intro u hu
        exact h r (List.getElem?_mem hp) u (get?_set_eq_none _ _ _ _ hu).2
      simp only []
      split
      · split
        · exact key
        · exact key
      · exact h
  | incInTracksReadyCount p now =>
    simp only [TrialStore.step, TrialStore.incInTracksReadyCount]
    cases hp : s.heap[p]? with
    | none => exact h
    | some r =>
      simp only []
      split
      · exact h
      · split
        · exact joinInv_setRoom s p _ h (h r (List.getElem?_mem hp))
        · exact joinInv_setRoom s p _ h (h r (List.getElem?_mem hp))
  | countdown p =>
    simp only [TrialStore.step, TrialStore.countdown]
    cases hp : s.heap[p]? with
    | none => exact h
    | some r => exact joinInv_setRoom s p _ h (h r (List.getElem?_mem hp))

theorem run_joinInv (ops : List TrialOp) (s : TrialStore) (h : s.JoinInv) :
    (s.run ops).JoinInv := by
  induction ops generalizing s with
  | nil => exact h
  | cons op ops ih => exact ih (s.step op) (step_joinInv s op h)

theorem joinRoom_error_state (s : TrialStore) (join : joinPayload) (e : String)
    (h : (joinRoom s join).2 = .error e) : (joinRoom s join).1 = s := by
  rcases joinRoom_cases s join with ⟨_, e1⟩ | ⟨_, e1⟩ | ⟨p, r, _, _, e1⟩ | ⟨p, r, _, _, _, e1⟩
  · rw [e1] at h
    cases h
  · rw [e1]
  · rw [e1] at h
    cases h
  · rw [e1] at h
    cases h

theorem joinRoom_joinedCount (s : TrialStore) (join : joinPayload) (p : Nat) (u : String)
    (h : s.JoinInv) :
    (joinRoom s join).1.joinedCount p u =
      s.joinedCount p u +
        (if join.UserId = u ∧ (joinRoom s join).2 = .ok p then 1 else 0) := by
  rcases joinRoom_cases s join with ⟨_, e⟩ | ⟨_, e⟩ | ⟨q, r, hq, hc, e⟩ | ⟨q, r, hq, hc, _, e⟩
  · rw [e]
    rcases Nat.lt_trichotomy p s.heap.length with hlt | heq | hgt
    · have hne : s.heap.length ≠ p := by omega
      simp [TrialStore.joinedCount, List.getElem?_append_left hlt, hne]
    · subst heq
      have hnone : s.heap[s.heap.length]? = none := List.getElem?_eq_none (le_refl _)
      by_cases hu : join.UserId = u
      · subst hu
        simp [TrialStore.joinedCount, hnone, trialRoom.joinedCountForUser, trialRoom.newRoom,
          GoMap.get?_set_self]
      · simp [TrialStore.joinedCount, hnone, trialRoom.joinedCountForUser, trialRoom.newRoom,
          GoMap.get?_set_ne _ _ _ _ hu, hu, GoMap.get?]
    · have hne : s.heap.length ≠ p := by omega
      have h1 : (s.heap ++ [trialRoom.newRoom (qualifiedId join) join])[p]? = none := by
        apply List.getElem?_eq_none
        simp
        omega
      have h2 : s.heap[p]? = none := List.getElem?_eq_none (by omega)
      simp [TrialStore.joinedCount, h1, h2, hne]
  · rw [e]
    simp
  · rw [e, joinedCount_setRoom s q p r _ u hq]
    by_cases hp : p = q
    · subst hp
      by_cases hu : join.UserId = u
      · subst hu
        simp [TrialStore.joinedCount, hq, trialRoom.joinedCountForUser, trialRoom.reconnected,
          GoMap.get?_set_self]
      · simp [TrialStore.joinedCount, hq, trialRoom.joinedCountForUser, trialRoom.reconnected,
          GoMap.get?_set_ne _ _ _ _ hu, hu]
    · have hp1 : ¬ q = p := fun e => hp e.symm
      simp [hp, hp1]
  · rw [e, joinedCount_setRoom s q p r _ u hq]
    by_cases hp : p = q
    · subst hp
      by_cases hu : join.UserId = u
      · subst hu
        have h0 : GoMap.get? r.joinedCountIndex join.UserId = none :=
          h r (List.getElem?_mem hq) _ hc
        simp [TrialStore.joinedCount, hq, trialRoom.joinedCountForUser, trialRoom.registered,
          GoMap.get?_set_self, h0]
      · simp [TrialStore.joinedCount, hq, trialRoom.joinedCountForUser, trialRoom.registered,
          GoMap.get?_set_ne _ _ _ _ hu, hu]
    · have hp1 : ¬ q = p := fun e => hp e.symm
      simp [hp, hp1]

theorem connectPeerServer_joinedCount (s : TrialStore) (q : Nat) (ps : peerServer) (p : Nat)
    (u : String) : (s.connectPeerServer q ps).joinedCount p u = s.joinedCount p u := by
  unfold TrialStore.connectPeerServer
  cases hq : s.heap[q]? with
  | none => rfl
  | some r => exact joinedCount_of_same_index s q p r _ u hq rfl

theorem disconnectUser_joinedCount (s : TrialStore) (q : Nat) (v : String) (p : Nat)
    (u : String) : (s.disconnectUser q v).joinedCount p u = s.joinedCount p u := by
  unfold TrialStore.disconnectUser
  cases hq : s.heap[q]? with
  | none => rfl
  | some r =>
    have key : (s.setRoom q { r with
        peerServerIndex := GoMap.delete r.peerServerIndex v
        connectedIndex := GoMap.set r.connectedIndex v false }).joinedCount p u =
        s.joinedCount p u := joinedCount_of_same_index s q p r _ u hq rfl
    simp only []
    split
    · split
      · exact key
      · exact key
    · rfl

theorem incInTracksReadyCount_joinedCount (s : TrialStore) (q : Nat) (now : Int) (p : Nat)
    (u : String) : (s.incInTracksReadyCount q now).joinedCount p u = s.joinedCount p u := by
  unfold TrialStore.incInTracksReadyCount
  cases hq : s.heap[q]? with
  | none => rfl
  | some r =>
    simp only []
    split
    · rfl
    · split
      · exact joinedCount_of_same_index s q p r _ u hq rfl
      · exact joinedCount_of_same_index s q p r _ u hq rfl

theorem countdown_joinedCount (s : TrialStore) (q : Nat) (p : Nat) (u : String) :
    (s.countdown q).joinedCount p u = s.joinedCount p u := by
  unfold TrialStore.countdown
  cases hq : s.heap[q]? with
  | none => rfl
  | some r => exact joinedCount_of_same_index s q p r _ u hq rfl

theorem step_joinedCount (s : TrialStore) (op : TrialOp) (p : Nat) (u : String)
    (h : s.JoinInv) :
    (s.step op).joinedCount p u = s.joinedCount p u + (successfulJoins s p u [op] : Nat) := by
  cases op with
  | joinRoom join =>
    simp only [TrialStore.step, successfulJoins]
    rw [joinRoom_joinedCount s join p u h]
    split <;> simp
  | connectPeerServer q ps =>
    simpa [TrialStore.step, successfulJoins] using connectPeerServer_joinedCount s q ps p u
  | disconnectUser q v =>
    simpa [TrialStore.step, successfulJoins] using disconnectUser_joinedCount s q v p u
  | incInTracksReadyCount q now =>
    simpa [TrialStore.step, successfulJoins] using incInTracksReadyCount_joinedCount s q now p u
  | countdown q =>
    simpa [TrialStore.step, successfulJoins] using countdown_joinedCount s q p u

theorem successfulJoins_cons (s : TrialStore) (p : Nat) (u : String) (op : TrialOp)
    (ops : List TrialOp) :
    successfulJoins s p u (op :: ops) =
      successfulJoins s p u [op] + successfulJoins (s.step op) p u ops := by
  simp [successfulJoins]

theorem run_joinedCount (ops : List TrialOp) (s : TrialStore) (p : Nat) (u : String)
    (h : s.JoinInv) :
    (s.run ops).joinedCount p u = s.joinedCount p u + (successfulJoins s p u ops : Nat) := by
  induction ops generalizing s with
  | nil => simp [TrialStore.run, successfulJoins]
  | cons op ops ih =>
    have h1 := ih (s.step op) (step_joinInv s op h)
    have h2 := step_joinedCount s op p u h
    rw [successfulJoins_cons]
    have h3 : (s.run (op :: ops)) = (s.step op).run ops := rfl
    rw [h3, h1, h2]
    push_cast
    ring

theorem init_joinInv : TrialStore.init.JoinInv := by
  intro r hr
  cases hr

/-- C6: after any sequence of calls on the global state, the join count of a user in a room
equals the number of `joinRoom` calls of the sequence that succeeded for this user and
returned this room (the creating join, first joins and reconnections); no call decreases it,
and a refused `joinRoom` and a `disconnectUser` leave it unchanged. -/
theorem joinedCount_counts_successful_joins (ops : List TrialOp) (p : Nat) (u : String) :
    (TrialStore.init.run ops).joinedCount p u = (successfulJoins TrialStore.init p u ops : Nat) ∧
    (∀ op : TrialOp, (TrialStore.init.run ops).joinedCount p u ≤
      ((TrialStore.init.run ops).step op).joinedCount p u) ∧
    (∀ (join : joinPayload) (e : String),
      (joinRoom (TrialStore.init.run ops) join).2 = .error e →
      (joinRoom (TrialStore.init.run ops) join).1.joinedCount p u =
        (TrialStore.init.run ops).joinedCount p u) ∧
    (∀ (q : Nat) (v : String),
      ((TrialStore.init.run ops).disconnectUser q v).joinedCount p u =
        (TrialStore.init.run ops).joinedCount p u) := by
  have hinv : (TrialStore.init.run ops).JoinInv := run_joinInv ops _ init_joinInv
  refine ⟨?_, ?_, ?_, ?_⟩
  · rw [run_joinedCount ops _ p u init_joinInv]
    simp [TrialStore.joinedCount, TrialStore.init]
  · intro op
    rw [step_joinedCount _ op p u hinv]
    omega
  · intro join e he
    rw [joinRoom_error_state _ join e he]
  · intro q v
    exact disconnectUser_joinedCount _ q v p u

/-- Witness of C6 on the sequence `joinLeaveJoin`: in the first room, `a` joined twice (one
join refused), and once in the room created after the deletion of the first. -/
theorem joinedCount_counts_successful_joins_witness :
    successfulJoins TrialStore.init 0 "a" joinLeaveJoin = 2 ∧
    (TrialStore.init.run joinLeaveJoin).joinedCount 0 "a" = 2 ∧
    successfulJoins TrialStore.init 1 "a" joinLeaveJoin = 1 ∧
    (TrialStore.init.run joinLeaveJoin).joinedCount 1 "a" = 1 :=
  ⟨by decide,
   (joinedCount_counts_successful_joins joinLeaveJoin 0 "a").1.trans (by decide),
   by decide,
   (joinedCount_counts_successful_joins joinLeaveJoin 1 "a").1.trans (by decide)⟩

/-! ## Refused joins -/

/-- C7: when `joinRoom` fails with "duplicate" or "full" it returns no room and the global
state is exactly as before: the room index and every room, with its `connectedIndex`,
`joinedCountIndex` and `peerServerIndex`, are unchanged. -/
theorem joinRoom_refused_leaves_state (s : TrialStore) (join : joinPayload)
    (h : (joinRoom s join).2 = .error "duplicate" ∨ (joinRoom s join).2 = .error "full") :
    (joinRoom s join).1 = s ∧ (∀ p, (joinRoom s join).2 ≠ .ok p) := by
  rcases h with h | h
  · refine ⟨joinRoom_error_state s join _ h, ?_⟩
    intro p hp
    rw [h] at hp
    cases hp
  · refine ⟨joinRoom_error_state s join _ h, ?_⟩
    intro p hp
    rw [h] at hp
    cases hp

/-- Witness of C7: the second join of `a`, refused as a duplicate, leaves the state with the
room of `a` as it was. -/
theorem joinRoom_refused_leaves_state_witness :
    (joinRoom storeA joinA).2 = .error "duplicate" ∧ (joinRoom storeA joinA).1 = storeA :=
  ⟨by decide, (joinRoom_refused_leaves_state storeA joinA (Or.inl (by decide))).1⟩

/-! ## Peer servers and connected users in `room.go` -/

theorem join_connInv (r r1 : room) (userId : String) (h : r.ConnInv)
    (hj : r.join userId = .ok r1) : r1.ConnInv := by
  have key : ∀ jc : GoMap Int, room.ConnInv { r with
      connectedIndex := GoMap.set r.connectedIndex userId true
      joinedCountIndex := jc } := by
    intro jc u hu
    by_cases hk : userId = u
    · subst hk
      exact GoMap.get?_set_self _ _ _
    · simp only []
      rw [GoMap.get?_set_ne _ _ _ _ hk]
      exact h u hu
  unfold room.join at hj
  split at hj
  · split at hj
    · cases hj
    · cases hj
      exact key _
  · split at hj
    · cases hj
    · cases hj
      exact key _

theorem disconnectUser_connInv (r : room) (userId : String) (h : r.ConnInv) :
    (r.disconnectUser userId).ConnInv := by
  have key : ∀ ef : List Effect, ∀ d : Bool, room.ConnInv { r with
      peerServerIndex := GoMap.delete r.peerServerIndex userId
      connectedIndex := GoMap.set r.connectedIndex userId false
      deleted := d
      effects := ef } := by
    intro ef d u hu
    obtain ⟨hne, hmem⟩ := (GoMap.mem_keys_delete _ _ _).mp hu
    have hne1 : userId ≠ u := fun e => hne e.symm
    simp only []
    rw [GoMap.get?_set_ne _ _ _ _ hne1]
    exact h u hmem
  unfold room.disconnectUser
  split
  · simp only []
    split
    · exact key _ _
    · exact key _ _
  · exact h

theorem step_connInv (r : room) (op : RoomOp) (h : r.ConnInv)
    (hv : connectsWhileConnected r [op] = true) : (r.step op).ConnInv := by
  cases op with
  | join userId =>
    simp only [room.step]
    split
    · rename_i r1 hj
      exact join_connInv r r1 userId h hj
    · exact h
  | connectPeerServer ps =>
    intro u hu
    simp only [room.step, room.connectPeerServer] at hu ⊢
    rcases (GoMap.mem_keys_set _ _ _ _).mp hu with hu | hu
    · rw [hu]
      simp only [connectsWhileConnected, Bool.and_true] at hv
      cases hc : GoMap.get? r.connectedIndex ps.userId with
      | none => simp [hc] at hv
      | some c =>
        simp only [hc, Option.getD_some] at hv
        rw [hv]
    · exact h u hu
  | disconnectUser userId => exact disconnectUser_connInv r userId h
  | incInTracksReadyCount fromPs kind now =>
    simp only [room.step, room.incInTracksReadyCount]
    split
    · split
      · exact h
      · exact h
    · split
      · exact h
      · exact h
  | addSSRC ssrc kind userId => exact h
  | incOutTracksReadyCount =>
    simp only [room.step, room.incOutTracksReadyCount]
    split
    · exact h
    · split
      · exact h
      · exact h
  | decOutTracksReadyCount => exact h
  | addFiles userId files => exact h
  | countdownEnd => exact h
  | countdownCleanup =>
    simp only [room.step, room.countdownCleanup]
    split
    · exact h
    · exact h

theorem run_connInv (ops : List RoomOp) (r : room) (h : r.ConnInv)
    (hv : connectsWhileConnected r ops = true) : (r.run ops).ConnInv := by
  induction ops generalizing r with
  | nil => exact h
  | cons op ops ih =>
    simp only [connectsWhileConnected, Bool.and_eq_true] at hv
    refine ih (r.step op) (step_connInv r op h ?_) hv.2
    simp only [connectsWhileConnected, Bool.and_true]
    exact hv.1

/-- C8: a late `disconnectUser` leaves a user in `peerServerIndex` whose `connectedIndex`
entry is false. In a room of size 2, `a` and `b` are connected; `a` leaves and joins again
(its entry is true again); a second `disconnectUser("a")`, for the connection that is
already gone, passes the guard on `connectedIndex["a"]` and sets the entry to false; the new
peer server of `a` is then connected. Afterwards `peerServerIndex["a"]` is the new peer
server while `connectedIndex["a"]` is false, and one more join of `a` is admitted as a
reconnection (join count 3). -/
theorem stale_disconnect_breaks_connected_invariant :
    GoMap.get?
      ((room.newRoom (qualifiedId joinA) joinA 0 "h").run
        (staleDisconnect.take 5)).connectedIndex "a" = some true ∧
    "a" ∈ GoMap.keys
      ((room.newRoom (qualifiedId joinA) joinA 0 "h").run staleDisconnect).peerServerIndex ∧
    GoMap.get?
      ((room.newRoom (qualifiedId joinA) joinA 0 "h").run staleDisconnect).peerServerIndex "a" =
      some psA2 ∧
    GoMap.get?
      ((room.newRoom (qualifiedId joinA) joinA 0 "h").run staleDisconnect).connectedIndex "a" =
      some false ∧
    ((room.newRoom (qualifiedId joinA) joinA 0 "h").run
      (staleDisconnect ++ [.join "a"])).joinedCountForUser "a" = 3 := by
  decide

/-- What holds of `peerServerIndex` and `connectedIndex` when no call is late: in every state
reached from a newly created room by a sequence of room operations in which every
`connectPeerServer(ps)` is called while `connectedIndex[ps.userId]` is true, every user of
`peerServerIndex` has `connectedIndex[userId] == true`. -/
theorem peerServerIndex_users_connected (qid : String) (join : joinPayload) (now : Int)
    (hid : String) (ops : List RoomOp)
    (hv : connectsWhileConnected (room.newRoom qid join now hid) ops = true) (u : String)
    (hu : u ∈ GoMap.keys ((room.newRoom qid join now hid).run ops).peerServerIndex) :
    GoMap.get? ((room.newRoom qid join now hid).run ops).connectedIndex u = some true := by
  have h0 : (room.newRoom qid join now hid).ConnInv := by
    intro v hv0
    simp [room.newRoom, GoMap.keys] at hv0
  exact run_connInv ops _ h0 hv u hu

/-- An orderly sequence: the peer servers of `a` and `b` are connected after their joins,
`a` leaves, joins again and connects a new peer server; `a` is in `peerServerIndex` and
connected. -/
theorem orderly_connects_keep_users_connected :
    "a" ∈ GoMap.keys
      ((room.newRoom (qualifiedId joinA) joinA 0 "h").run orderlyConnects).peerServerIndex ∧
    GoMap.get?
      ((room.newRoom (qualifiedId joinA) joinA 0 "h").run orderlyConnects).connectedIndex "a" =
      some true :=
  ⟨by decide,
   peerServerIndex_users_connected (qualifiedId joinA) joinA 0 "h" orderlyConnects (by decide)
     "a" (by decide)⟩

/-! ## A room never holds more peers than its size -/

theorem sizeInv_setRoom (s : TrialStore) (q : Nat) (r1 : trialRoom) (h : s.SizeInv)
    (h1 : r1.SizeInv) : (s.setRoom q r1).SizeInv := by
  intro r hr
  rcases List.mem_or_eq_of_mem_set hr with hr | hr
  · exact h r hr
  · rw [hr]
    exact h1

theorem newRoom_sizeInv (qid : String) (join : joinPayload) :
    (trialRoom.newRoom qid join).SizeInv := by
  refine ⟨by simp [trialRoom.newRoom, GoMap.set, GoMap.keys],
    by simp [trialRoom.newRoom, GoMap.keys], ?_, ?_⟩
  · intro u hu
    simp [trialRoom.newRoom, GoMap.keys] at hu
  · simp only [trialRoom.userCount, trialRoom.newRoom, GoMap.len, GoMap.set, DefaultSize,
      MaxSize, List.length_singleton]
    split_ifs <;> omega

theorem set_present_sizeInv (r : trialRoom) (u : String) (c : Bool) (jc : GoMap Int)
    (ps : GoMap peerServer) (h : r.SizeInv) (hu : (GoMap.get? r.connectedIndex u).isSome = true)
    (hps : (GoMap.keys ps).Nodup)
    (hsub : ∀ v, v ∈ GoMap.keys ps → v ∈ GoMap.keys r.peerServerIndex ∨ v = u) :
    trialRoom.SizeInv { r with
      peerServerIndex := ps
      connectedIndex := GoMap.set r.connectedIndex u c
      joinedCountIndex := jc } := by
  obtain ⟨h1, h2, h3, h4⟩ := h
  refine ⟨GoMap.nodup_keys_set _ _ _ h1, hps, ?_, ?_⟩
  · intro v hv
    rw [GoMap.mem_keys_set]
    rcases hsub v hv with hv | hv
    · exact Or.inr (h3 v hv)
    · exact Or.inl hv
  · simp only [trialRoom.userCount, GoMap.len, GoMap.length_set, hu, if_true] at h4 ⊢
    exact h4

theorem registered_sizeInv (r : trialRoom) (u : String) (h : r.SizeInv)
    (hu : GoMap.get? r.connectedIndex u = none) (hf : r.userCount ≠ r.size) :
    (r.registered u).SizeInv := by
  obtain ⟨h1, h2, h3, h4⟩ := h
  refine ⟨GoMap.nodup_keys_set _ _ _ h1, h2, ?_, ?_⟩
  · intro v hv
    simp only [trialRoom.registered]
    rw [GoMap.mem_keys_set]
    exact Or.inr (h3 v hv)
  · simp only [trialRoom.userCount, trialRoom.registered, GoMap.len, GoMap.length_set, hu,
      Option.isSome_none] at h4 hf ⊢
    simp only [Bool.false_eq_true, if_false]
    push_cast
    omega

theorem joinRoom_sizeInv (s : TrialStore) (join : joinPayload) (h : s.SizeInv) :
    (joinRoom s join).1.SizeInv := by
  rcases joinRoom_cases s join with ⟨_, e⟩ | ⟨_, e⟩ | ⟨p, r, hp, hc, e⟩ | ⟨p, r, hp, hc, hf, e⟩
  · rw [e]
    intro r hr
    rcases List.mem_append.mp hr with hr | hr
    · exact h r hr
    · rw [List.mem_singleton] at hr
      rw [hr]
      exact newRoom_sizeInv _ _
  · rw [e]
    exact h
  · rw [e]
    have hr := h r (List.getElem?_mem hp)
    exact sizeInv_setRoom s p _ h
      (set_present_sizeInv r join.UserId true _ r.peerServerIndex hr (by simp [hc]) hr.2.1
        (fun v hv => Or.inl hv))
  · rw [e]
    exact sizeInv_setRoom s p _ h (registered_sizeInv r join.UserId (h r (List.getElem?_mem hp)) hc hf)

theorem connectPeerServer_sizeInv (s : TrialStore) (p : Nat) (ps : peerServer) (h : s.SizeInv)
    (hv : ∀ r, s.heap[p]? = some r → (GoMap.get? r.connectedIndex ps.userId).isSome = true) :
    (s.connectPeerServer p ps).SizeInv := by
  unfold TrialStore.connectPeerServer
  cases hp : s.heap[p]? with
  | none => exact h
  | some r =>
    obtain ⟨h1, h2, h3, h4⟩ := h r (List.getElem?_mem hp)
    refine sizeInv_setRoom s p _ h ⟨h1, GoMap.nodup_keys_set _ _ _ h2, ?_, h4⟩
    intro u hu
    rcases (GoMap.mem_keys_set _ _ _ _).mp hu with hu | hu
    · rw [hu, GoMap.mem_keys_iff]
      exact hv r hp
    · exact h3 u hu

theorem disconnectUser_sizeInv (s : TrialStore) (p : Nat) (userId : String) (h : s.SizeInv) :
    (s.disconnectUser p userId).SizeInv := by
  unfold TrialStore.disconnectUser
  cases hp : s.heap[p]? with
  | none => exact h
  | some r =>
    simp only []
    split
    · rename_i hc
      have hr := h r (List.getElem?_mem hp)
      have hsome : (GoMap.get? r.connectedIndex userId).isSome = true := by
        cases hg : GoMap.get? r.connectedIndex userId with
        | none => simp [hg] at hc
        | some c => rfl
      have key : (s.setRoom p { r with
          peerServerIndex := GoMap.delete r.peerServerIndex userId
          connectedIndex := GoMap.set r.connectedIndex userId false }).SizeInv :=
        sizeInv_setRoom s p _ h
          (set_present_sizeInv r userId false r.joinedCountIndex _ hr hsome
            (GoMap.nodup_keys_delete _ _ hr.2.1)
            (fun v hv => Or.inl ((GoMap.mem_keys_delete _ _ _).mp hv).2))
      split
      · exact key
      · exact key
    · exact h

theorem incInTracksReadyCount_sizeInv (s : TrialStore) (p : Nat) (now : Int) (h : s.SizeInv) :
    (s.incInTracksReadyCount p now).SizeInv := by
  unfold TrialStore.incInTracksReadyCount
  cases hp : s.heap[p]? with
  | none => exact h
  | some r =>
    simp only []
    split
    · exact h
    · split
      · exact sizeInv_setRoom s p _ h (h r (List.getElem?_mem hp))
      · exact sizeInv_setRoom s p _ h (h r (List.getElem?_mem hp))

theorem countdown_sizeInv (s : TrialStore) (p : Nat) (h : s.SizeInv) :
    (s.countdown p).SizeInv := by
  unfold TrialStore.countdown
  cases hp : s.heap[p]? with
  | none => exact h
  | some r => exact sizeInv_setRoom s p _ h (h r (List.getElem?_mem hp))

theorem run_append_singleton (s : TrialStore) (done : List TrialOp) (op : TrialOp) :
    s.run (done ++ [op]) = (s.run done).step op := by
  simp [TrialStore.run, List.foldl_append]

theorem joined_user_has_entry (done : List TrialOp) (p : Nat) (u : String) (r : trialRoom)
    (hj : 0 < successfulJoins TrialStore.init p u done)
    (hp : (TrialStore.init.run done).heap[p]? = some r) :
    (GoMap.get? r.connectedIndex u).isSome = true := by
  have hcount := run_joinedCount done TrialStore.init p u init_joinInv
  have hinv := run_joinInv done TrialStore.init init_joinInv r (List.getElem?_mem hp) u
  have h0 : TrialStore.init.joinedCount p u = 0 := by
    simp [TrialStore.joinedCount, TrialStore.init]
  rw [h0] at hcount
  simp only [TrialStore.joinedCount, hp, trialRoom.joinedCountForUser] at hcount
  cases hc : GoMap.get? r.connectedIndex u with
  | some c => rfl
  | none =>
    rw [hinv hc] at hcount
    simp only [Option.getD_none, zero_add] at hcount
    omega

theorem run_sizeInv (ops : List TrialOp) (done : List TrialOp)
    (h : (TrialStore.init.run done).SizeInv) (hv : connectsAfterJoin done ops = true) :
    (TrialStore.init.run (done ++ ops)).SizeInv := by
  induction ops generalizing done with
  | nil => simpa using h
  | cons op ops ih =>
    simp only [connectsAfterJoin, Bool.and_eq_true] at hv
    have hstep : (TrialStore.init.run (done ++ [op])).SizeInv := by
      rw [run_append_singleton]
      cases op with
      | joinRoom join => exact joinRoom_sizeInv _ join h
      | connectPeerServer p ps =>
        refine connectPeerServer_sizeInv _ p ps h ?_
        intro r hp
        exact joined_user_has_entry done p ps.userId r (by simpa using hv.1) hp
      | disconnectUser p userId => exact disconnectUser_sizeInv _ p userId h
      | incInTracksReadyCount p now => exact incInTracksReadyCount_sizeInv _ p now h
      | countdown p => exact countdown_sizeInv _ p h
    have := ih (done ++ [op]) hstep hv.2
    simpa using this

theorem sizeInv_connectedUserCount_le (r : trialRoom) (h : r.SizeInv) :
    r.connectedUserCount ≤ r.size := by
  obtain ⟨_, h2, h3, h4⟩ := h
  have hle : (GoMap.keys r.peerServerIndex).length ≤ (GoMap.keys r.connectedIndex).length :=
    (List.subperm_of_subset h2 (fun u hu => h3 u hu)).length_le
  rw [GoMap.length_keys, GoMap.length_keys] at hle
  simp only [trialRoom.connectedUserCount, trialRoom.userCount, GoMap.len] at h4 ⊢
  omega

/-- C9: in every state reached from the initial global state by a sequence of calls in which
every `connectPeerServer` on a room is made for a user whose `joinRoom` succeeded on that
room, every room has `userCount() <= size` and `connectedUserCount() <= size`. -/
theorem connectedUserCount_le_size (ops : List TrialOp)
    (hv : connectsAfterJoin [] ops = true) (p : Nat) (r : trialRoom)
    (hp : (TrialStore.init.run ops).heap[p]? = some r) :
    r.userCount ≤ r.size ∧ r.connectedUserCount ≤ r.size := by
  have h0 : (TrialStore.init.run []).SizeInv := by
    intro r hr
    cases hr
  have h := run_sizeInv ops [] h0 hv
  rw [List.nil_append] at h
  have hr := h r (List.getElem?_mem hp)
  exact ⟨hr.2.2.2, sizeInv_connectedUserCount_le r hr⟩

/-- Witness of C9: three users ask for a room of size 2; the third is refused and the room
holds two users and two peers. -/
theorem connectedUserCount_le_size_witness :
    (joinRoom (TrialStore.init.run threeUsersJoin.dropLast)
      ⟨"r", "c", "ns", 30, 2, "https://host"⟩).2 = .error "full" ∧
    roomOfTwo.connectedUserCount = 2 ∧
    roomOfTwo.userCount ≤ roomOfTwo.size ∧ roomOfTwo.connectedUserCount ≤ roomOfTwo.size :=
  ⟨by decide, by decide,
   connectedUserCount_le_size threeUsersJoin (by decide) 0 roomOfTwo (by decide)⟩

/-! ## Reuse of the qualified id of a deleted room -/

theorem disconnectUser_deletes (s : TrialStore) (p : Nat) (r : trialRoom) (u : String)
    (hp : s.heap[p]? = some r) (hc : GoMap.get? r.connectedIndex u = some true)
    (hlast : GoMap.len (GoMap.delete r.peerServerIndex u) = 0) (hrun : r.running = false) :
    s.disconnectUser p u =
      { heap := s.heap.set p { r with
          peerServerIndex := GoMap.delete r.peerServerIndex u
          connectedIndex := GoMap.set r.connectedIndex u false }
        roomIndex := GoMap.delete s.roomIndex r.qualifiedId } := by
  simp [TrialStore.disconnectUser, hp, hc, trialRoom.connectedUserCount, hlast, hrun,
    TrialStore.delete, TrialStore.setRoom]

/-- C10: when the last connected user `u` of a room that is not running disconnects, the
room is removed from `roomIndex`, and a following `joinRoom` with the same qualified id
succeeds and returns a newly allocated room, at an address different from that of the
deleted room: its `connectedIndex` holds only the joining user, the join count of this user
is 1, its `peerServerIndex` is empty, its track counters are 0 and it is not running,
whatever the state of the deleted room; the deleted room itself is not touched by this
join. -/
theorem joinRoom_after_delete_is_fresh (s : TrialStore) (p : Nat) (r : trialRoom)
    (u : String) (join : joinPayload)
    (hp : s.heap[p]? = some r) (hc : GoMap.get? r.connectedIndex u = some true)
    (hlast : GoMap.len (GoMap.delete r.peerServerIndex u) = 0) (hrun : r.running = false)
    (hq : qualifiedId join = r.qualifiedId) :
    GoMap.get? (s.disconnectUser p u).roomIndex r.qualifiedId = none ∧
    (joinRoom (s.disconnectUser p u) join).2 = .ok s.heap.length ∧
    s.heap.length ≠ p ∧
    GoMap.get? (joinRoom (s.disconnectUser p u) join).1.roomIndex r.qualifiedId =
      some s.heap.length ∧
    (joinRoom (s.disconnectUser p u) join).1.heap[p]? = (s.disconnectUser p u).heap[p]? ∧
    ∃ r1, (joinRoom (s.disconnectUser p u) join).1.heap[s.heap.length]? = some r1 ∧
      r1.connectedIndex = [(join.UserId, true)] ∧
      r1.joinedCountIndex = [(join.UserId, 1)] ∧
      r1.joinedCountForUser join.UserId = 1 ∧
      r1.peerServerIndex = [] ∧
      r1.inTracksReadyCount = 0 ∧ r1.outTracksReadyCount = 0 ∧
      r1.running = false ∧ r1.waitForAllCh.closed = false := by
  have hlt : p < s.heap.length := by
    rcases Nat.lt_or_ge p s.heap.length with hl | hl
    · exact hl
    · rw [List.getElem?_eq_none hl] at hp
      cases hp
  have hd := disconnectUser_deletes s p r u hp hc hlast hrun
  have habs : GoMap.get? (s.disconnectUser p u).roomIndex (qualifiedId join) = none := by
    rw [hd, hq]
    exact GoMap.get?_delete_self _ _
  have hlen : (s.disconnectUser p u).heap.length = s.heap.length := by
    rw [hd]
    simp
  have hj := joinRoom_absent (s.disconnectUser p u) join habs
  rw [hlen] at hj
  refine ⟨by rw [← hq]; exact habs, by rw [hj], by omega, ?_, ?_, ?_⟩
  · rw [hj, ← hq]
    exact GoMap.get?_set_self _ _ _
  · rw [hj]
    have hlt1 : p < (s.disconnectUser p u).heap.length := by omega
    exact List.getElem?_append_left hlt1
  · refine ⟨trialRoom.newRoom (qualifiedId join) join, ?_, rfl, rfl, ?_, rfl, rfl, rfl, rfl, rfl⟩
    · rw [hj]
      have := List.getElem?_concat_length (s.disconnectUser p u).heap
        (trialRoom.newRoom (qualifiedId join) join)
      rw [hlen] at this
      exact this
    · simp [trialRoom.joinedCountForUser, trialRoom.newRoom, GoMap.set, GoMap.get?]

/-- Witness of C10: `a` creates room `r`, connects, disconnects, and `b` asks for room `r`:
`b` gets a new room at address 1 in which it is the only user. -/
theorem joinRoom_after_delete_is_fresh_witness :
    (joinRoom (storeAConnected.disconnectUser 0 "a") joinB).2 = .ok 1 ∧
    ((joinRoom (storeAConnected.disconnectUser 0 "a") joinB).1.heap[1]?.map
      trialRoom.connectedIndex) = some [("b", true)] :=
  ⟨(joinRoom_after_delete_is_fresh storeAConnected 0 roomAConnected "a" joinB
      (by decide) (by decide) (by decide) (by decide) (by decide)).2.1,
   by decide⟩

/-! ## Idempotence of `disconnectUser` in `room.go` -/

theorem disconnectUser_of_not_connected (r : room) (userId : String)
    (h : (GoMap.get? r.connectedIndex userId).getD false = false) :
    r.disconnectUser userId = r := by
  simp [room.disconnectUser, h]

theorem disconnectUser_marks_disconnected (r : room) (userId : String) :
    (GoMap.get? (r.disconnectUser userId).connectedIndex userId).getD false = false := by
  unfold room.disconnectUser
  split
  · simp only []
    split
    · simp [room.unguardedDelete, GoMap.get?_set_self]
    · simp [GoMap.get?_set_self]
  · rename_i h
    simpa using h

theorem count_storeDelete_map_remove (l : List Nat) :
    (l.map Effect.removeFromSSRCIndex).count Effect.storeDelete = 0 := by
  induction l with
  | nil => rfl
  | cons a l ih =>
    rw [List.map_cons, List.count_cons, ih]
    simp

theorem count_storeDelete_map_send (l : GoMap peerServer) :
    (l.map (fun e => Effect.wsSend e.2 "start")).count Effect.storeDelete = 0 := by
  induction l with
  | nil => rfl
  | cons a l ih =>
    rw [List.map_cons, List.count_cons, ih]
    simp

theorem unguardedDelete_deleteInv (r : room) (h : r.DeleteInv) (hd : r.deleted = false) :
    r.unguardedDelete.DeleteInv := by
  unfold room.DeleteInv room.storeDeleteCount at *
  rw [hd] at h
  simp only [room.unguardedDelete, List.count_append, count_storeDelete_map_remove, h]
  simp

theorem disconnectUser_deleteInv (r : room) (userId : String) (h : r.DeleteInv) :
    (r.disconnectUser userId).DeleteInv := by
  have key : room.DeleteInv { r with
      peerServerIndex := GoMap.delete r.peerServerIndex userId
      connectedIndex := GoMap.set r.connectedIndex userId false
      effects := r.effects ++ [Effect.goManagedGlobalSignaling "user_disconnected" false] } := by
    unfold room.DeleteInv room.storeDeleteCount at *
    simp only [List.count_append]
    rw [h]
    simp
  unfold room.disconnectUser
  split
  · simp only []
    split
    · rename_i hc
      refine unguardedDelete_deleteInv _ key ?_
      simp only [Bool.and_eq_true, Bool.not_eq_true'] at hc
      exact hc.2
    · exact key
  · exact h

theorem step_deleteInv (r : room) (op : RoomOp) (h : r.DeleteInv) : (r.step op).DeleteInv := by
  cases op with
  | join userId =>
    simp only [room.step, room.join]
    split <;> rename_i heq
    · split at heq
      · split at heq
        · cases heq
        · cases heq
          exact h
      · split at heq
        · cases heq
        · cases heq
          exact h
    · exact h
  | connectPeerServer ps => exact h
  | disconnectUser userId => exact disconnectUser_deleteInv r userId h
  | incInTracksReadyCount fromPs kind now =>
    unfold room.DeleteInv room.storeDeleteCount at *
    simp only [room.step, room.incInTracksReadyCount]
    split
    · split
      · simp only [List.count_append]
        rw [h]
        simp
      · exact h
    · split
      · simp only [List.count_append, count_storeDelete_map_send]
        rw [h]
        simp
      · exact h
  | addSSRC ssrc kind userId =>
    unfold room.DeleteInv room.storeDeleteCount at *
    simp only [room.step, room.addSSRC, List.count_append]
    rw [h]
    simp
  | incOutTracksReadyCount =>
    simp only [room.step, room.incOutTracksReadyCount]
    split
    · exact h
    · split
      · exact h
      · exact h
  | decOutTracksReadyCount => exact h
  | addFiles userId files => exact h
  | countdownEnd => exact h
  | countdownCleanup =>
    simp only [room.step, room.countdownCleanup]
    split
    · rename_i hd
      refine unguardedDelete_deleteInv r h ?_
      simpa using hd
    · exact h

theorem run_deleteInv (ops : List RoomOp) (r : room) (h : r.DeleteInv) :
    (r.run ops).DeleteInv := by
  induction ops generalizing r with
  | nil => exact h
  | cons op ops ih => exact ih (r.step op) (step_deleteInv r op h)

/-- C11: `disconnectUser` of `room.go` is idempotent. For every room and user, calling it
twice in a row gives the same room, with the same log of signaling goroutines and store
deletions, as calling it once; a call for a user whose `connectedIndex` entry is false or
absent returns the room unchanged; and in every state reached from `newRoom` by a sequence
of room operations the store was asked to delete the room at most once. -/
theorem disconnectUser_idempotent (r : room) (userId : String) (qid : String)
    (join : joinPayload) (now : Int) (hid : String) (ops : List RoomOp) :
    (r.disconnectUser userId).disconnectUser userId = r.disconnectUser userId ∧
    ((GoMap.get? r.connectedIndex userId).getD false = false →
      r.disconnectUser userId = r) ∧
    ((r.disconnectUser userId).disconnectUser userId).disconnectSignalingCount =
      (r.disconnectUser userId).disconnectSignalingCount ∧
    ((r.disconnectUser userId).disconnectUser userId).storeDeleteCount =
      (r.disconnectUser userId).storeDeleteCount ∧
    ((room.newRoom qid join now hid).run ops).storeDeleteCount ≤ 1 := by
  have hidem : (r.disconnectUser userId).disconnectUser userId = r.disconnectUser userId :=
    disconnectUser_of_not_connected _ userId (disconnectUser_marks_disconnected r userId)
  refine ⟨hidem, disconnectUser_of_not_connected r userId, by rw [hidem], by rw [hidem], ?_⟩
  have h0 : (room.newRoom qid join now hid).DeleteInv := by
    simp [room.DeleteInv, room.storeDeleteCount, room.newRoom]
  have h := run_deleteInv ops _ h0
  unfold room.DeleteInv at h
  rw [h]
  split <;> omega

/-- Witness of C11 on the sequence `disconnectTwice`: the first `disconnectUser("a")` empties
the room and deletes it, the second one and the countdown cleanup add no deletion. -/
theorem disconnectUser_idempotent_witness :
    ((room.newRoom (qualifiedId joinA) joinA 0 "h").run disconnectTwice).storeDeleteCount = 1 ∧
    ((room.newRoom (qualifiedId joinA) joinA 0 "h").run disconnectTwice).storeDeleteCount ≤ 1 ∧
    ((room.newRoom (qualifiedId joinA) joinA 0 "h").disconnectUser "b") =
      room.newRoom (qualifiedId joinA) joinA 0 "h" :=
  ⟨by decide,
   (disconnectUser_idempotent (room.newRoom (qualifiedId joinA) joinA 0 "h") "b"
      (qualifiedId joinA) joinA 0 "h" disconnectTwice).2.2.2.2,
   (disconnectUser_idempotent (room.newRoom (qualifiedId joinA) joinA 0 "h") "b"
      (qualifiedId joinA) joinA 0 "h" disconnectTwice).2.1 (by decide)⟩

/-! ## The ending delay of `room.go` -/

/-- C12, as the claim states it, fails: a room asked for with a duration of 10 seconds has
`duration - Ending = -5`, and `endingDelay()` returns 1 right at the start, outside the
interval `[1, duration - Ending]`. -/
theorem endingDelay_exceeds_short_duration :
    (room.newRoom (qualifiedId joinShort) joinShort 0 "h").duration = 10 ∧
    (room.newRoom (qualifiedId joinShort) joinShort 0 "h").endingDelay 0 = 1 ∧
    ¬ ((room.newRoom (qualifiedId joinShort) joinShort 0 "h").endingDelay 0 ≤
      (room.newRoom (qualifiedId joinShort) joinShort 0 "h").duration - Ending) := by
  decide

/-- C12, amended: `newRoom` gives a duration in `[1, 1200]`, and for every room and every
elapsed time `endingDelay()` returns `max(1, duration - elapsed - Ending)`, a value in
`[1, max(1, duration - Ending)]`: it is in `[1, duration - Ending]` when
`duration > Ending`, and it is 1 when `duration <= Ending`. -/
theorem endingDelay_bounds (r : room) (elapsed : Int) (he : 0 ≤ elapsed) (qid : String)
    (join : joinPayload) (now : Int) (hid : String) :
    (1 ≤ (room.newRoom qid join now hid).duration ∧
      (room.newRoom qid join now hid).duration ≤ 1200) ∧
    r.endingDelay elapsed = max 1 (r.duration - elapsed - Ending) ∧
    1 ≤ r.endingDelay elapsed ∧
    r.endingDelay elapsed ≤ max 1 (r.duration - Ending) ∧
    (Ending < r.duration → r.endingDelay elapsed ≤ r.duration - Ending) ∧
    (r.duration ≤ Ending → r.endingDelay elapsed = 1) := by
  refine ⟨?_, ?_, ?_, ?_, ?_, ?_⟩
  · simp only [room.newRoom, DefaultDuration, MaxDuration]
    split_ifs <;> omega
  · simp only [room.endingDelay, Ending]
    split <;> omega
  · simp only [room.endingDelay, Ending]
    split <;> omega
  · simp only [room.endingDelay, Ending]
    split <;> omega
  · intro h
    simp only [room.endingDelay, Ending] at h ⊢
    split <;> omega
  · intro h
    simp only [room.endingDelay, Ending] at h ⊢
    split <;> omega

/-- Witness of the amended C12: in a room of 30 seconds, 5 seconds after the start, the
ending delay is 10, between 1 and `duration - Ending = 15`. -/
theorem endingDelay_bounds_witness :
    (room.newRoom (qualifiedId joinA) joinA 0 "h").endingDelay 5 = 10 ∧
    (room.newRoom (qualifiedId joinA) joinA 0 "h").endingDelay 5 ≤
      (room.newRoom (qualifiedId joinA) joinA 0 "h").duration - Ending :=
  ⟨by decide,
   (endingDelay_bounds (room.newRoom (qualifiedId joinA) joinA 0 "h") 5 (by decide)
      (qualifiedId joinA) joinA 0 "h").2.2.2.2.1 (by decide)⟩

/-! ## Bounds of the optimal bitrate -/

theorem capRate_bounds (sc : senderController) (inRate : Nat)
    (h : sc.minBitrate ≤ sc.maxBitrate) :
    sc.minBitrate ≤ sc.capRate inRate ∧ sc.capRate inRate ≤ sc.maxBitrate := by
  unfold senderController.capRate
  split_ifs <;> omega

theorem step_bitrates (sc : senderController) (e : SenderEvent) :
    (sc.step e).minBitrate = sc.minBitrate ∧ (sc.step e).maxBitrate = sc.maxBitrate ∧
    ∃ inRate, (sc.step e).optimalBitrate = sc.capRate inRate := by
  cases e with
  | receiverReport loss => exact ⟨rfl, rfl, _, rfl⟩
  | gccTick targetBitrate audioMaxBitrate => exact ⟨rfl, rfl, _, rfl⟩

theorem run_bitrates (events : List SenderEvent) (sc : senderController)
    (h : sc.minBitrate ≤ sc.maxBitrate)
    (h0 : sc.minBitrate ≤ sc.optimalBitrate ∧ sc.optimalBitrate ≤ sc.maxBitrate) :
    (sc.run events).minBitrate = sc.minBitrate ∧ (sc.run events).maxBitrate = sc.maxBitrate ∧
    sc.minBitrate ≤ (sc.run events).optimalBitrate ∧
    (sc.run events).optimalBitrate ≤ sc.maxBitrate := by
  induction events generalizing sc with
  | nil => exact ⟨rfl, rfl, h0.1, h0.2⟩
  | cons e events ih =>
    obtain ⟨e1, e2, inRate, e3⟩ := step_bitrates sc e
    have hb := capRate_bounds sc inRate h
    have := ih (sc.step e) (by rw [e1, e2]; exact h) (by rw [e1, e2, e3]; exact hb)
    rw [e1, e2] at this
    exact this

/-- C13, as the claim states it, fails: with a configuration whose default bitrate 50000 is
below its minimum 100000, the optimal bitrate right after `newSenderController` is 50000,
outside `[minBitrate, maxBitrate]`. -/
theorem default_bitrate_below_minimum :
    (newSenderController "video" lowDefaultConfig).optimalBitrate = 50000 ∧
    (newSenderController "video" lowDefaultConfig).minBitrate = 100000 ∧
    ¬ ((newSenderController "video" lowDefaultConfig).minBitrate ≤
      (newSenderController "video" lowDefaultConfig).optimalBitrate) := by
  decide

/-- C13, amended: for every stream configuration with
`MinBitrate <= DefaultBitrate <= MaxBitrate`, the optimal bitrate lies in
`[minBitrate, maxBitrate]` right after `newSenderController` and after every sequence of
`updateRateFromLoss` calls and GCC ticks, whatever the losses, the estimator targets and the
audio bitrate are. -/
theorem optimalBitrate_in_bounds (kind : String) (cfg : streamConfig)
    (hmin : cfg.MinBitrate ≤ cfg.DefaultBitrate) (hmax : cfg.DefaultBitrate ≤ cfg.MaxBitrate)
    (events : List SenderEvent) :
    ((newSenderController kind cfg).run events).minBitrate ≤
      ((newSenderController kind cfg).run events).optimalBitrate ∧
    ((newSenderController kind cfg).run events).optimalBitrate ≤
      ((newSenderController kind cfg).run events).maxBitrate := by
  have h := run_bitrates events (newSenderController kind cfg)
    (le_trans hmin hmax) ⟨hmin, hmax⟩
  rw [h.1, h.2.1]
  exact h.2.2

/-- Witness of the amended C13: from 1 Mbit/s, three reports without loss, one report with
heavy loss and a GCC tick keep the bitrate between 100 kbit/s and 2 Mbit/s. -/
theorem optimalBitrate_in_bounds_witness :
    ((newSenderController "video" videoConfig).run
      [.receiverReport 0, .receiverReport 0, .receiverReport 0, .receiverReport 200,
       .gccTick 3000000 64000]).optimalBitrate = 2000000 ∧
    (100000 ≤ ((newSenderController "video" videoConfig).run
      [.receiverReport 0, .receiverReport 0, .receiverReport 0, .receiverReport 200,
       .gccTick 3000000 64000]).optimalBitrate ∧
    ((newSenderController "video" videoConfig).run
      [.receiverReport 0, .receiverReport 0, .receiverReport 0, .receiverReport 200,
       .gccTick 3000000 64000]).optimalBitrate ≤ 2000000) :=
  ⟨by decide,
   optimalBitrate_in_bounds "video" videoConfig (by decide) (by decide)
     [.receiverReport 0, .receiverReport 0, .receiverReport 0, .receiverReport 200,
      .gccTick 3000000 64000]⟩

/-! ## The loss-based update -/

theorem afterLossFreeReports_succ (sc : senderController) (n : Nat) :
    sc.afterLossFreeReports (n + 1) = (sc.afterLossFreeReports n).updateRateFromLoss 0 := by
  simp only [senderController.afterLossFreeReports]
  exact Function.iterate_succ_apply' _ n sc

theorem afterLossFreeReports_eq (sc : senderController) (b0 : Nat) (n : Nat)
    (h0 : sc.optimalBitrate = b0)
    (hn : ∀ k < n, sc.lossFreeStep^[k] b0 * 269 < 2 ^ 64) :
    sc.afterLossFreeReports n = { sc with optimalBitrate := sc.lossFreeStep^[n] b0 } := by
  induction n with
  | zero =>
    subst h0
    rfl
  | succ n ih =>
    have hprev := ih (fun k hk => hn k (Nat.lt_succ_of_lt hk))
    have hlt := hn n (Nat.lt_succ_self n)
    rw [afterLossFreeReports_succ, hprev, Function.iterate_succ_apply']
    simp only [senderController.updateRateFromLoss, senderController.lossFreeStep,
      senderController.capRate, Fin.val_zero, Nat.zero_lt_succ, if_true, Nat.mod_eq_of_lt hlt,
      show (0 : Nat) < 5 from by decide]

/-- C14, as the claim states it, fails: with a previous bitrate of 5 * 10^16 (so that
`prev * 269 < 2^64`) and `loss = 26`, the product `prev * 486` exceeds `2^64` and wraps, and
`updateRateFromLoss` sets the bitrate to 11432140481036032, not to
`floor(prev * 486 / 512) = 47460937500000000` capped into `[0, 10^17]`. -/
theorem updateRateFromLoss_wraps_on_heavy_loss :
    hugeController.optimalBitrate * 269 < 2 ^ 64 ∧
    (hugeController.updateRateFromLoss 26).optimalBitrate = 11432140481036032 ∧
    hugeController.capRate (hugeController.optimalBitrate * (512 - 26) / 512) =
      47460937500000000 ∧
    (hugeController.updateRateFromLoss 26).optimalBitrate ≠
      hugeController.capRate (hugeController.optimalBitrate * (512 - 26) / 512) := by
  decide

/-- C14, amended: for every previous bitrate `prev` and every 8-bit loss value,
`updateRateFromLoss` sets the optimal bitrate to `capRate((prev * 269 mod 2^64) / 256)` when
`loss < 5`, which is `capRate(floor(prev * 269 / 256))` when `prev * 269 < 2^64`; to
`capRate((prev * (512 - loss) mod 2^64) / 512)` when `loss > 25`, which is
`capRate(floor(prev * (512 - loss) / 512))` when `prev * (512 - loss) < 2^64`; and to
`capRate(prev)` when `5 <= loss <= 25`. So `n` consecutive reports with loss 0 starting from
1000000 yield the `n`-fold iterate of the first step, as long as every iterate times 269
stays below `2^64`, and this value is at most `maxBitrate` when `n >= 1` and
`minBitrate <= maxBitrate`. -/
theorem updateRateFromLoss_formula (sc : senderController) (loss : Fin 256) (n : Nat) :
    (loss.val < 5 →
      (sc.updateRateFromLoss loss).optimalBitrate =
        sc.capRate (sc.optimalBitrate * 269 % 2 ^ 64 / 256)) ∧
    (loss.val < 5 → sc.optimalBitrate * 269 < 2 ^ 64 →
      (sc.updateRateFromLoss loss).optimalBitrate =
        sc.capRate (sc.optimalBitrate * 269 / 256)) ∧
    (loss.val > 25 →
      (sc.updateRateFromLoss loss).optimalBitrate =
        sc.capRate (sc.optimalBitrate * (512 - loss.val) % 2 ^ 64 / 512)) ∧
    (loss.val > 25 → sc.optimalBitrate * (512 - loss.val) < 2 ^ 64 →
      (sc.updateRateFromLoss loss).optimalBitrate =
        sc.capRate (sc.optimalBitrate * (512 - loss.val) / 512)) ∧
    (5 ≤ loss.val → loss.val ≤ 25 →
      (sc.updateRateFromLoss loss).optimalBitrate = sc.capRate sc.optimalBitrate) ∧
    (sc.optimalBitrate = 1000000 →
      (∀ k < n, sc.lossFreeStep^[k] 1000000 * 269 < 2 ^ 64) →
      (sc.afterLossFreeReports n).optimalBitrate = sc.lossFreeStep^[n] 1000000 ∧
      (sc.minBitrate ≤ sc.maxBitrate → 0 < n →
        (sc.afterLossFreeReports n).optimalBitrate ≤ sc.maxBitrate)) := by
  refine ⟨?_, ?_, ?_, ?_, ?_, ?_⟩
  · intro hl
    simp only [senderController.updateRateFromLoss, hl, if_true]
  · intro hl hlt
    simp only [senderController.updateRateFromLoss, hl, if_true]
    rw [Nat.mod_eq_of_lt hlt]
  · intro hl
    have h5 : ¬ loss.val < 5 := by omega
    simp only [senderController.updateRateFromLoss, hl, h5, if_true, if_false]
  · intro hl hlt
    have h5 : ¬ loss.val < 5 := by omega
    simp only [senderController.updateRateFromLoss, hl, h5, if_true, if_false]
    rw [Nat.mod_eq_of_lt hlt]
  · intro h5 h25
    have h5' : ¬ loss.val < 5 := by omega
    have h25' : ¬ loss.val > 25 := by omega
    simp [senderController.updateRateFromLoss, h5', h25']
  · intro h0 hn
    have heq := afterLossFreeReports_eq sc 1000000 n h0 hn
    refine ⟨by rw [heq], ?_⟩
    intro hmm hpos
    rw [heq]
    obtain ⟨m, rfl⟩ : ∃ m, n = m + 1 := ⟨n - 1, by omega⟩
    simp only [Function.iterate_succ_apply']
    exact (capRate_bounds sc _ hmm).2

/-- Witness of the amended C14: from 1 Mbit/s with bounds 100 kbit/s and 2 Mbit/s, one report
without loss gives 1050781 bit/s, ten give 1641048 bit/s and twenty reach the cap of
2 Mbit/s; a report with loss 26 multiplies by 486/512; and from 10^17 bit/s a report
without loss gives the wrapped product divided by 256, capped. -/
theorem updateRateFromLoss_formula_witness :
    ((newSenderController "video" videoConfig).updateRateFromLoss 0).optimalBitrate = 1050781 ∧
    ((newSenderController "video" videoConfig).updateRateFromLoss 26).optimalBitrate = 949218 ∧
    ((newSenderController "video" videoConfig).afterLossFreeReports 10).optimalBitrate =
      1641048 ∧
    ((newSenderController "video" videoConfig).afterLossFreeReports 20).optimalBitrate ≤
      2000000 ∧
    (wrappingController.updateRateFromLoss 0).optimalBitrate = 33020530962072064 :=
  ⟨((updateRateFromLoss_formula (newSenderController "video" videoConfig) 0 10).2.1
      (by decide) (by decide)).trans (by decide),
   ((updateRateFromLoss_formula (newSenderController "video" videoConfig) 26 10).2.2.2.1
      (by decide) (by decide)).trans (by decide),
   ((updateRateFromLoss_formula (newSenderController "video" videoConfig) 0 10).2.2.2.2.2
      (by decide) (by decide)).1.trans (by decide),
   ((updateRateFromLoss_formula (newSenderController "video" videoConfig) 0 20).2.2.2.2.2
      (by decide) (by decide)).2 (by decide) (by decide),
   ((updateRateFromLoss_formula wrappingController 0 1).1 (by decide)).trans (by decide)⟩

/-! ## The GCC tick -/

/-- C15: a GCC tick with a target below the audio bitrate publishes the maximum. With bounds
100 kbit/s and 2 Mbit/s, a target of 50000 bit/s and `config.Audio.MaxBitrate = 64000`, the
`uint64` difference wraps to `2^64 - 14000` and `capRate` publishes `maxBitrate = 2000000`,
not `minBitrate = 100000`. -/
theorem gccTick_below_audio_publishes_maximum :
    uint64Sub (uint64OfInt 50000) 64000 = 2 ^ 64 - 14000 ∧
    ((newSenderController "video" videoConfig).gccTick 50000 64000).optimalBitrate = 2000000 ∧
    ((newSenderController "video" videoConfig).gccTick 50000 64000).maxBitrate = 2000000 ∧
    ((newSenderController "video" videoConfig).gccTick 50000 64000).minBitrate = 100000 ∧
    ((newSenderController "video" videoConfig).gccTick 50000 64000).optimalBitrate ≠
      ((newSenderController "video" videoConfig).gccTick 50000 64000).minBitrate := by
  decide

/-! ## The sanitizer `parseString` -/

theorem filter_parsedChar_of_all (l : List Char) (h : ∀ c ∈ l, parsedChar c = true) :
    l.filter parsedChar = l :=
  List.filter_eq_self.mpr h

theorem parseString_of_clean (l : List Char) (h : ∀ c ∈ l, parsedChar c = true)
    (h0 : l.length ≠ 0) (h1 : l.length ≤ MaxParsedLength) :
    parseString (String.mk l) = String.mk l := by
  have hf : (String.mk l).toList.filter parsedChar = l := filter_parsedChar_of_all l h
  have h2 : ¬ l.length > MaxParsedLength := by omega
  simp only [parseString, hf, h0, h2, if_false]

/-- C16: `parseString` is idempotent: for every string `s`,
`parseString(parseString(s)) == parseString(s)`. -/
theorem parseString_idempotent (s : String) : parseString (parseString s) = parseString s := by
  have hall : ∀ c ∈ s.toList.filter parsedChar, parsedChar c = true :=
    fun c hc => (List.mem_filter.mp hc).2
  by_cases h0 : (s.toList.filter parsedChar).length = 0
  · have e : parseString s = "default" := by simp only [parseString, h0, if_true]
    rw [e]
    decide
  · by_cases h1 : (s.toList.filter parsedChar).length > MaxParsedLength
    · have e : parseString s =
          String.mk ((s.toList.filter parsedChar).take (MaxParsedLength - 1)) := by
        simp only [parseString, h0, h1, if_true, if_false]
      rw [e]
      refine parseString_of_clean _ (fun c hc => hall c (List.mem_of_mem_take hc)) ?_ ?_
      · simp only [List.length_take, MaxParsedLength] at h1 ⊢
        omega
      · simp only [List.length_take, MaxParsedLength]
        omega
    · have e : parseString s = String.mk (s.toList.filter parsedChar) := by
        simp only [parseString, h0, h1, if_false]
      rw [e]
      exact parseString_of_clean _ hall h0 (by omega)

/-- Witness of C16: sanitizing `"../etc/pass wd"` gives `"etcpasswd"`, and sanitizing again
changes nothing. -/
theorem parseString_idempotent_witness :
    parseString "../etc/pass wd" = "etcpasswd" ∧
    parseString (parseString "../etc/pass wd") = parseString "../etc/pass wd" :=
  ⟨by decide, parseString_idempotent "../etc/pass wd"⟩

/-- C17: `parseString` does not truncate to 50 characters. On a string of 51 letters `a` it
returns the first 49 of them, where the sanitizer of the specification returns the first
50. -/
theorem parseString_truncates_to_49 :
    parseString longUserId = String.mk (List.replicate 49 'a') ∧
    (parseString longUserId).length = 49 ∧
    parseStringReference longUserId = String.mk (List.replicate 50 'a') ∧
    parseString longUserId ≠ parseStringReference longUserId := by
  decide

theorem parseString_agrees_when_short (s : String)
    (h : (s.toList.filter parsedChar).length ≤ MaxParsedLength) :
    parseString s = parseStringReference s := by
  by_cases h0 : s.toList.filter parsedChar = []
  · simp only [parseString, parseStringReference, h0, List.length_nil, if_true]
  · have h1 : (s.toList.filter parsedChar).length ≠ 0 := fun e => h0 (List.length_eq_zero.mp e)
    have h2 : ¬ (s.toList.filter parsedChar).length > MaxParsedLength := by omega
    simp only [parseString, parseStringReference, h0, h1, h2, if_false, List.take_of_length_le h]

/-! ## Qualified room ids -/

theorem append_sep_left_unique (c : Char) (l1 l2 t1 t2 : List Char)
    (h : l1 ++ c :: t1 = l2 ++ c :: t2) (h1 : c ∉ l1) (h2 : c ∉ l2) : l1 = l2 := by
  induction l1 generalizing l2 with
  | nil =>
    cases l2 with
    | nil => rfl
    | cons b l2 =>
      simp only [List.nil_append, List.cons_append, List.cons.injEq] at h
      exact absurd (List.mem_cons.mpr (Or.inl h.1)) h2
  | cons a l1 ih =>
    cases l2 with
    | nil =>
      simp only [List.nil_append, List.cons_append, List.cons.injEq] at h
      exact absurd (List.mem_cons.mpr (Or.inl h.1.symm)) h1
    | cons b l2 =>
      simp only [List.cons_append, List.cons.injEq] at h
      have hl1 : c ∉ l1 := fun hc => h1 (List.mem_cons_of_mem a hc)
      have hl2 : c ∉ l2 := fun hc => h2 (List.mem_cons_of_mem b hc)
      rw [h.1, ih l2 h.2 hl1 hl2]

theorem append_sep_right_unique (c : Char) (l1 l2 t1 t2 : List Char)
    (h : l1 ++ c :: t1 = l2 ++ c :: t2) (h1 : c ∉ t1) (h2 : c ∉ t2) : l1 = l2 := by
  have hrev : t1.reverse ++ c :: l1.reverse = t2.reverse ++ c :: l2.reverse := by
    have := congrArg List.reverse h
    simpa [List.reverse_append, List.reverse_cons, List.append_assoc] using this
  have ht : t1.reverse = t2.reverse :=
    append_sep_left_unique c _ _ _ _ hrev (by simpa using h1) (by simpa using h2)
  rw [ht] at hrev
  have hl := List.append_cancel_left hrev
  simp only [List.cons.injEq, true_and] at hl
  exact List.reverse_injective hl

theorem qualifiedId_data (join : joinPayload) :
    (qualifiedId join).data = join.origin.data ++ '#' :: join.RoomId.data := by
  simp [qualifiedId, String.data_append]

/-- C18, as the claim states it, fails: origin `o` with room id `#r` and origin `o#` with
room id `r` have different origins and the same qualified id `o##r`. -/
theorem qualifiedId_collision :
    joinHashRoom.origin ≠ joinHashOrigin.origin ∧
    qualifiedId joinHashRoom = qualifiedId joinHashOrigin := by
  decide

/-- C18, amended: for every two join payloads whose origins differ, `qualifiedId` returns
different keys, whatever their room ids are, provided neither origin contains the character
`#`; the same holds when the origins are arbitrary and neither room id contains `#`. -/
theorem qualifiedId_injective_on_origin (join1 join2 : joinPayload)
    (hne : join1.origin ≠ join2.origin)
    (hsep : ('#' ∉ join1.origin.data ∧ '#' ∉ join2.origin.data) ∨
      ('#' ∉ join1.RoomId.data ∧ '#' ∉ join2.RoomId.data)) :
    qualifiedId join1 ≠ qualifiedId join2 := by
  intro h
  have hd : join1.origin.data ++ '#' :: join1.RoomId.data =
      join2.origin.data ++ '#' :: join2.RoomId.data := by
    rw [← qualifiedId_data, ← qualifiedId_data, h]
  apply hne
  rcases hsep with ⟨h1, h2⟩ | ⟨h1, h2⟩
  · exact String.ext (append_sep_left_unique '#' _ _ _ _ hd h1 h2)
  · exact String.ext (append_sep_right_unique '#' _ _ _ _ hd h1 h2)

/-- Witness of the amended C18: the same room id `r` asked for from two origins gives two
different qualified ids. -/
theorem qualifiedId_injective_on_origin_witness :
    qualifiedId joinA ≠ qualifiedId ⟨"r", "a", "ns", 30, 2, "https://other"⟩ :=
  qualifiedId_injective_on_origin joinA ⟨"r", "a", "ns", 30, 2, "https://other"⟩
    (by decide) (Or.inl ⟨by decide, by decide⟩)

/-! ## `ControlFx` and the missing pipeline -/

/-- C19: `ControlFx` tests `audioPipeline` in its `video` branch. A `video` request on a
peer connection whose video pipeline is nil and whose audio pipeline is set is not ignored:
the running interpolator is stopped and `SetFxProperty` is called on the nil pipeline. And a
`video` request on a peer connection whose video pipeline is set and whose audio pipeline is
nil is ignored, although the matching pipeline is present. -/
theorem controlFx_video_checks_audio_pipeline :
    audioOnlyConn.videoPipeline = none ∧
    (audioOnlyConn.ControlFx videoGainControl ⟨0⟩ []).2 =
      [FxCall.interpolatorStop ⟨⟨0⟩, ⟨1⟩, 1000, 30⟩,
       FxCall.setFxProperty none "fx" "gain" ⟨7⟩] ∧
    videoOnlyConn.videoPipeline = some ⟨2⟩ ∧
    (videoOnlyConn.ControlFx videoGainControl ⟨0⟩ []).2 = [] ∧
    (videoOnlyConn.ControlFx videoGainControl ⟨0⟩ []).1 = videoOnlyConn := by
  decide

/-! ## Deletion of a room from `roomIndex` -/

/-- C20: a `disconnectUser` on a deleted room removes the room that replaced it in
`roomIndex`. After `a` left the first room of id `r` (address 0), the room was deleted and
`c` got a new room (address 1) under the same qualified id; `b`, still attached to the first
room, then connects its peer server and leaves: `delete(roomIndex, r.qualifiedId)` removes
the entry of the room at address 1, in which `c` is connected. -/
theorem disconnect_on_deleted_room_removes_new_room :
    GoMap.get? (TrialStore.init.run staleRoomDisconnect.dropLast).roomIndex
      (qualifiedId joinC) = some 1 ∧
    GoMap.get? (TrialStore.init.run staleRoomDisconnect).roomIndex (qualifiedId joinC) = none ∧
    (TrialStore.init.run staleRoomDisconnect).roomIndex = [] ∧
    ((TrialStore.init.run staleRoomDisconnect).heap[1]?.map trialRoom.connectedIndex) =
      some [("c", true)] ∧
    ((TrialStore.init.run staleRoomDisconnect).heap[1]?.map trialRoom.connectedUserCount) =
      some 1 := by
  decide

end Sfu
